import Mathlib

/-!
Verification of the slot/match-3 board engine:
grid model, match finder, gravity and fill algorithms, action gate and
round processor, shallowly embedded from the TypeScript sources
(SlotConfig.ts / SlotUtility.ts, SlotBoard.ts, SlotActions.ts, SlotProcess.ts).
Machine numbers are modelled as `Int`/`Nat` (JS array indices may be negative,
hence `Int` coordinates); JS `undefined` results become `Option.none`.
-/

/-- Pair of row & column representing grid coordinates (`SlotPosition`).
JS allows arbitrary (possibly negative) numbers here, hence `Int`. -/
structure SlotPosition where
  row : Int
  column : Int
deriving DecidableEq, Repr

/-- Piece type on each position in the grid (`SlotType`): integer ≥ 0, 0 = empty. -/
abbrev SlotType := Nat

/-- Two-dimensional array representing the game board (`SlotGrid`). -/
abbrev SlotGrid := List (List SlotType)

/-- JS array indexing `l[i]`: `undefined` (`none`) when `i` is negative or past the end. -/
def listGetI {α : Type} (l : List α) (i : Int) : Option α :=
  if 0 ≤ i then l.get? i.toNat else none

/-- Cell read with default 0, by natural indices (used where the source loops are
known to stay in bounds; on a rectangular grid it agrees with `slotGetPieceType`). -/
def cellD (grid : SlotGrid) (r c : Nat) : SlotType :=
  ((grid.get? r).getD []).getD c 0

/-- Number of columns the source loops read: `grid[0].length`. -/
def slotCols (grid : SlotGrid) : Nat := ((grid.get? 0).getD []).length

/-- `slotGetPieceType(grid, position)`: the piece type at a position,
`undefined` (`none`) if the position is invalid — JS `grid?.[row]?.[column]`. -/
def slotGetPieceType (grid : SlotGrid) (position : SlotPosition) : Option SlotType :=
  (listGetI grid position.row).bind fun row => listGetI row position.column

/-- `slotSetPieceType(grid, position, type)`: unchecked write `grid[row][column] = type`.
(All call sites in the source first establish that the cell is defined.) -/
def slotSetPieceType (grid : SlotGrid) (position : SlotPosition) (type : SlotType) : SlotGrid :=
  if 0 ≤ position.row ∧ 0 ≤ position.column then
    grid.set position.row.toNat
      (((grid.get? position.row.toNat).getD []).set position.column.toNat type)
  else grid

/-- `match3ComparePositions(a, b)`: component-wise equality of positions. -/
def match3ComparePositions (a b : SlotPosition) : Bool :=
  a.row == b.row && a.column == b.column

/-- `slotIsValidPosition(grid, position)`: bounds check against `grid.length`
and `grid[0].length`. -/
def slotIsValidPosition (grid : SlotGrid) (position : SlotPosition) : Bool :=
  decide (0 ≤ position.row) && decide (position.row < (grid.length : Int)) &&
  decide (0 ≤ position.column) &&
  decide (position.column < ((slotCols grid : Nat) : Int))

/-- `match3SwapPieces(grid, positionA, positionB)`: exchange two cells, but only
if both types are valid (not undefined); otherwise leave the grid untouched. -/
def match3SwapPieces (grid : SlotGrid) (positionA positionB : SlotPosition) : SlotGrid :=
  match slotGetPieceType grid positionA, slotGetPieceType grid positionB with
  | some typeA, some typeB =>
      slotSetPieceType (slotSetPieceType grid positionA typeB) positionB typeA
  | _, _ => grid

/-- Orientation for match checks. -/
inductive SlotOrientation where
  | horizontal
  | vertical
deriving DecidableEq, Repr

/-- The inner run-tracking loop of `slotGetMatchesByOrientation`, over one
primary line: carries JS `lastType` (`undefined` initially) and `currentMatch`,
closing a run when the type changes or is empty, and flushing `currentMatch`
when the line ends. Emits matches in the source's push order. -/
def slotScanGo (matchSize : Nat) :
    Option SlotType → List SlotPosition → List (SlotPosition × SlotType) →
    List (List SlotPosition)
  | _, currentMatch, [] =>
      if matchSize ≤ currentMatch.length then [currentMatch] else []
  | lastType, currentMatch, (position, type) :: rest =>
      if type ≠ 0 ∧ some type = lastType then
        slotScanGo matchSize lastType (currentMatch ++ [position]) rest
      else
        (if matchSize ≤ currentMatch.length then [currentMatch] else []) ++
          slotScanGo matchSize (some type) [position] rest

/-- `slotGetMatchesByOrientation(grid, matchSize, orientation)`: scan each
primary line (row for horizontal, column for vertical) for runs of equal
non-empty types of length ≥ `matchSize`. -/
def slotGetMatchesByOrientation (grid : SlotGrid) (matchSize : Nat)
    (orientation : SlotOrientation) : List (List SlotPosition) :=
  let rows := grid.length
  let columns := slotCols grid
  let primary := if orientation = SlotOrientation.horizontal then rows else columns
  let secondary := if orientation = SlotOrientation.horizontal then columns else rows
  ((List.range primary).map fun p =>
    slotScanGo matchSize none []
      ((List.range secondary).map fun s =>
        let row : Nat := if orientation = SlotOrientation.horizontal then p else s
        let column : Nat := if orientation = SlotOrientation.horizontal then s else p
        (⟨(row : Int), (column : Int)⟩, cellD grid row column))).flatten

/-- `slotGetMatches(grid, filter?, matchSize)`: all matches in the grid — the
source only spreads the horizontal orientation scan into `allMatches` — then,
if a filter is given, keep the matches containing at least one filter position. -/
def slotGetMatches (grid : SlotGrid) (filter : Option (List SlotPosition))
    (matchSize : Nat) : List (List SlotPosition) :=
  let allMatches := slotGetMatchesByOrientation grid matchSize SlotOrientation.horizontal
  match filter with
  | none => allMatches
  | some filterPositions =>
      allMatches.filter fun m =>
        m.any fun position =>
          filterPositions.any fun filterPosition =>
            match3ComparePositions position filterPosition

/-- `slotGetEmptyPositions(grid)`: all positions with type 0, in row-major order. -/
def slotGetEmptyPositions (grid : SlotGrid) : List SlotPosition :=
  let rows := grid.length
  let columns := slotCols grid
  ((List.range rows).map fun r =>
    ((List.range columns).filter fun c => cellD grid r c = 0).map fun (c : Nat) =>
      (⟨(r : Int), (c : Int)⟩ : SlotPosition)).flatten

example :
    slotGetMatches [[1, 1, 1], [2, 3, 2], [3, 2, 3]] none 3 =
      [[⟨0, 0⟩, ⟨0, 1⟩, ⟨0, 2⟩]] := by decide

example : slotGetMatches [[1, 1, 2], [2, 3, 2], [3, 2, 3]] none 3 = [] := by decide

example : slotGetMatches [[0]] none 1 = [[⟨0, 0⟩]] := by decide

/-- `slotGetRandomType(types)`: the source picks `types[floor(random * length)]`,
an index that JS guarantees to be `< types.length` when the list is non-empty.
The random draw is the injected index `k`; call sites quantify over it. -/
def slotGetRandomType (types : List SlotType) (k : Nat) : SlotType :=
  types.getD k 0

/-- `match3CreateGrid(rows, columns, types)`: a rows×columns grid, every cell
independently assigned a randomly picked type. `rand r c` is the random index
drawn for cell (r, c). -/
def match3CreateGrid (rows columns : Nat) (types : List SlotType)
    (rand : Nat → Nat → Nat) : SlotGrid :=
  (List.range rows).map fun r =>
    (List.range columns).map fun c => slotGetRandomType types (rand r c)

/-- The row-major traversal order `for r … for c …` shared by the fill and
empty-scan loops. -/
def rowMajorIdx (rows columns : Nat) : List (Nat × Nat) :=
  ((List.range rows).map fun r =>
    (List.range columns).map fun c => (r, c)).flatten

/-- One iteration of the `slotFillUp` double loop: if the cell is empty, copy
the helper grid's value into it and record the position. -/
def slotFillUpStep (tempGrid : SlotGrid) (st : SlotGrid × List SlotPosition)
    (rc : Nat × Nat) : SlotGrid × List SlotPosition :=
  if cellD st.1 rc.1 rc.2 = 0 then
    (slotSetPieceType st.1 ⟨(rc.1 : Int), (rc.2 : Int)⟩ (cellD tempGrid rc.1 rc.2),
      st.2 ++ [⟨(rc.1 : Int), (rc.2 : Int)⟩])
  else st

/-- `slotFillUp(grid, types)`: generate a same-size helper grid with the
grid-creation algorithm, copy its values into every empty cell (row-major),
and return the list of newly filled positions reversed. -/
def slotFillUp (grid : SlotGrid) (types : List SlotType) (rand : Nat → Nat → Nat) :
    SlotGrid × List SlotPosition :=
  let tempGrid := match3CreateGrid grid.length (slotCols grid) types rand
  let st := (rowMajorIdx grid.length (slotCols grid)).foldl
    (slotFillUpStep tempGrid) (grid, [])
  (st.1, st.2.reverse)

/-- The `while` loop of `slotApplyGravity`: keep swapping the moving cell with
the position below while that position is valid and empty, tracking the current
position and the `hasChanged` flag. The while loop runs at most `rows` times
(the row index strictly increases and is bounded by the row count), so fuel
`grid.length` is enough; callers pass exactly that. -/
def slotGravityWhile (fuel : Nat) (grid : SlotGrid) (position : SlotPosition)
    (hasChanged : Bool) : SlotGrid × SlotPosition × Bool :=
  match fuel with
  | 0 => (grid, position, hasChanged)
  | fuel + 1 =>
    let belowPosition : SlotPosition := ⟨position.row + 1, position.column⟩
    if slotIsValidPosition grid belowPosition = true ∧
        slotGetPieceType grid belowPosition = some 0 then
      slotGravityWhile fuel (match3SwapPieces grid position belowPosition) belowPosition true
    else (grid, position, hasChanged)

/-- One iteration of the `slotApplyGravity` double loop, at cell (r, c):
skip if the position below is out of bounds, otherwise run the falling loop
and record a `[from, to]` change when the cell moved. -/
def slotGravityCell (st : SlotGrid × List (SlotPosition × SlotPosition)) (r c : Nat) :
    SlotGrid × List (SlotPosition × SlotPosition) :=
  let position : SlotPosition := ⟨(r : Int), (c : Int)⟩
  let belowPosition : SlotPosition := ⟨(r : Int) + 1, (c : Int)⟩
  if slotIsValidPosition st.1 belowPosition = true then
    let res := slotGravityWhile st.1.length st.1 position false
    if res.2.2 = true then (res.1, st.2 ++ [(position, res.2.1)]) else (res.1, st.2)
  else st

/-- `slotApplyGravity(grid)`: from the bottommost row upward, left to right,
let every cell fall through the empty cells below it; returns the changed grid
and the list of `[from, to]` pairs for the cells the loop moved. -/
def slotApplyGravity (grid : SlotGrid) : SlotGrid × List (SlotPosition × SlotPosition) :=
  let rows := grid.length
  let columns := slotCols grid
  ((List.range rows).reverse).foldl
    (fun st r => (List.range columns).foldl (fun st2 c => slotGravityCell st2 r c) st)
    (grid, [])

example :
    slotApplyGravity [[1, 0], [0, 2]] = ([[0, 0], [1, 2]], [(⟨0, 0⟩, ⟨1, 0⟩)]) := by
  decide

example :
    slotApplyGravity [[0], [0]] = ([[0], [0]], [(⟨0, 0⟩, ⟨1, 0⟩)]) := by decide

/-- The game mode (`SlotMode`): the two valid modes of `slotValidModes`. -/
inductive SlotMode where
  | normal
  | free_spins
deriving DecidableEq, Repr

/-- The `blocks.normal` list of piece-kind names. -/
def slotBlocksNormal : List String :=
  ["piece-dragon", "piece-frog", "piece-newt", "piece-snake", "piece-spider"]

/-- The `blocks.free_spins` list of piece-kind names. -/
def slotBlocksFreeSpins : List String :=
  ["special-blast", "special-row", "special-column", "special-colour"]

/-- The `blocks` record, indexed by mode. -/
def slotBlocksOf : SlotMode → List String
  | SlotMode.normal => slotBlocksNormal
  | SlotMode.free_spins => slotBlocksFreeSpins

/-- `slotGetBlocks(mode)`: the source returns `[...blocks[mode], ...blocks.normal]`. -/
def slotGetBlocks (mode : SlotMode) : List String :=
  slotBlocksOf mode ++ slotBlocksNormal

/-- The type-code assignment loop of `SlotBoard.setup`: for each index `i` of
the active block list, code `i + 1` maps to the block name at `i`
(`typesMap[type] = name`), and `commonTypes` collects the codes in order. -/
def slotBoardTypesList (mode : SlotMode) : List (SlotType × String) :=
  (slotGetBlocks mode).enum.map fun ia => (ia.1 + 1, ia.2)

/-- `commonTypes` built by `SlotBoard.setup`: codes `1 … blocks.length`. -/
def slotBoardCommonTypes (mode : SlotMode) : List SlotType :=
  (slotGetBlocks mode).enum.map fun ia => ia.1 + 1

/-- The slice of a `SlotPiece` sprite the board logic reads: its mirrored grid
coordinates and its locked flag (`isLocked()`); `setup()` ends in `unlock()`,
so a freshly created piece is unlocked. -/
structure SlotPieceState where
  row : Int
  column : Int
  locked : Bool
deriving DecidableEq, Repr

/-- `SlotBoard.getPieceByPosition(position)`: linear scan returning the first
piece whose mirrored coordinates equal the position, else null (`none`). -/
def getPieceByPosition (pieces : List SlotPieceState) (position : SlotPosition) :
    Option SlotPieceState :=
  pieces.find? fun piece =>
    piece.row == position.row && piece.column == position.column

/-- The state read and guarded by `SlotActions.actionSpin`: the session's
playing flag (`Slot.isPlaying()`), the board's active piece list, and the grid. -/
structure SlotActionState where
  playing : Bool
  pieces : List SlotPieceState
  grid : SlotGrid
deriving DecidableEq, Repr

/-- `SlotActions.actionSpin(from, to)`: return early unless the session is
playing, a piece exists at `from` and is unlocked, and the grid type at `from`
is truthy (`if (!typeA) return` — both `undefined` and `0` fail the JS test).
Otherwise `dropPiece` (a log-only stub) runs and `process.start()` is invoked.
The boolean records whether `start()` was reached; the state is never mutated. -/
def actionSpin (st : SlotActionState) (fromPos toPos : SlotPosition) :
    Bool × SlotActionState :=
  if st.playing = false then (false, st)
  else
    match getPieceByPosition st.pieces fromPos with
    | none => (false, st)
    | some pieceA =>
      if pieceA.locked then (false, st)
      else
        match slotGetPieceType st.grid fromPos with
        | none => (false, st)
        | some 0 => (false, st)
        | some (_ + 1) => (true, st)

/-- `SlotBoard.jumpPiece(position)`: look up the piece sprite and the grid type
at the position; if either is missing (or the type is 0), do nothing; otherwise
animate and dispose the piece (remove it from the active list). The grid itself
is never written. -/
def slotJumpPiece (grid : SlotGrid) (pieces : List SlotPieceState)
    (position : SlotPosition) : SlotGrid × List SlotPieceState :=
  match getPieceByPosition pieces position, slotGetPieceType grid position with
  | some piece, some (_ + 1) => (grid, pieces.erase piece)
  | _, _ => (grid, pieces)

/-- `SlotBoard.jumpPieces(positions)`: jump every position of a batch. -/
def slotJumpPieces (grid : SlotGrid) (pieces : List SlotPieceState)
    (positions : List SlotPosition) : SlotGrid × List SlotPieceState :=
  positions.foldl (fun st p => slotJumpPiece st.1 st.2 p) (grid, pieces)

/-- `SlotProcess.processRegularMatches()`: recompute the matches and jump the
pieces of every match. -/
def slotProcessRegularMatches (grid : SlotGrid) (pieces : List SlotPieceState) :
    SlotGrid × List SlotPieceState :=
  (slotGetMatches grid none 3).foldl (fun st m => slotJumpPieces st.1 st.2 m) (grid, pieces)

/-- The piece bookkeeping of `SlotProcess.applyGravity()`: for a `[from, to]`
change, the first piece found at `from` gets its mirrored coordinates moved to
`to` (pieces may be absent; the animation is then skipped). -/
def slotUpdatePieceAt : List SlotPieceState → SlotPosition → SlotPosition →
    List SlotPieceState
  | [], _, _ => []
  | piece :: rest, fromP, toP =>
    if piece.row == fromP.row && piece.column == fromP.column then
      { piece with row := toP.row, column := toP.column } :: rest
    else piece :: slotUpdatePieceAt rest fromP toP

/-- `SlotProcess.applyGravity()`: apply the grid transform, then update the
moved pieces' coordinates (their fall animation does not change the grid). -/
def slotProcessApplyGravity (grid : SlotGrid) (pieces : List SlotPieceState) :
    SlotGrid × List SlotPieceState :=
  let res := slotApplyGravity grid
  (res.1, res.2.foldl (fun ps ch => slotUpdatePieceAt ps ch.1 ch.2) pieces)

/-- `SlotProcess.refillGrid()`: fill the empty cells and create one (unlocked)
piece sprite per newly filled position. -/
def slotProcessRefillGrid (grid : SlotGrid) (pieces : List SlotPieceState)
    (types : List SlotType) (rand : Nat → Nat → Nat) :
    SlotGrid × List SlotPieceState :=
  let res := slotFillUp grid types rand
  (res.1, res.2.foldl (fun ps p => ps ++ [⟨p.row, p.column, false⟩]) pieces)

/-- The round loop driven by `SlotProcess.runProcessRound` and
`processCheckpoint`: each round bumps the round counter, updates stats (a pure
read), clears the current matches (`processRegularMatches`), applies gravity,
refills the grid (`randSeq round` injects that round's random draws), then the
checkpoint either stops — no matches and no empty cells — returning the final
round count and grid, or enqueues another round. `fuel` bounds the number of
rounds we run; `none` means the session was still processing after `fuel`
rounds. -/
def slotRunRounds (types : List SlotType) (randSeq : Nat → Nat → Nat → Nat) :
    Nat → Nat → SlotGrid → List SlotPieceState → Option (Nat × SlotGrid)
  | _, 0, _, _ => none
  | round, fuel + 1, grid, pieces =>
    let round1 := round + 1
    let st2 := slotProcessRegularMatches grid pieces
    let st3 := slotProcessApplyGravity st2.1 st2.2
    let st4 := slotProcessRefillGrid st3.1 st3.2 types (randSeq round1)
    if slotGetMatches st4.1 none 3 = [] ∧ slotGetEmptyPositions st4.1 = [] then
      some (round1, st4.1)
    else slotRunRounds types randSeq round1 fuel st4.1 st4.2

/-! ### Basic cell-access lemmas -/

theorem listGetI_coe {α : Type} (l : List α) (i : Nat) : listGetI l (i : Int) = l[i]? := by
  simp [listGetI, List.get?_eq_getElem?]

theorem listGetI_neg {α : Type} (l : List α) {i : Int} (h : i < 0) : listGetI l i = none := by
  simp [listGetI, not_le.mpr h]

/-- Length of row `r` of a grid (0 when the row does not exist). -/
def rowLen (grid : SlotGrid) (r : Nat) : Nat := ((grid[r]?).getD []).length

theorem cellD_eq_getD (grid : SlotGrid) (r c : Nat) :
    cellD grid r c = ((grid[r]?).getD []).getD c 0 := by
  simp [cellD, List.get?_eq_getElem?]

theorem slotGetPieceType_natCast (grid : SlotGrid) (r c : Nat) :
    slotGetPieceType grid ⟨(r : Int), (c : Int)⟩ =
      (grid[r]?).bind fun row => row[c]? := by
  simp [slotGetPieceType, listGetI, List.get?_eq_getElem?]

theorem slotGetPieceType_eq_some (grid : SlotGrid) {r c : Nat}
    (hr : r < grid.length) (hc : c < rowLen grid r) :
    slotGetPieceType grid ⟨(r : Int), (c : Int)⟩ = some (cellD grid r c) := by
  rw [slotGetPieceType_natCast, List.getElem?_eq_getElem hr]
  have hc' : c < (grid[r]).length := by
    simpa [rowLen, List.getElem?_eq_getElem hr] using hc
  simp [cellD_eq_getD, List.getElem?_eq_getElem hr, List.getElem?_eq_getElem hc',
    List.getD_eq_getElem?_getD, List.getElem?_eq_getElem hc']

theorem pos_eq_natCast {p : SlotPosition} {r c : Nat} (hr : 0 ≤ p.row)
    (hc : 0 ≤ p.column) (h1 : p.row.toNat = r) (h2 : p.column.toNat = c) :
    p = ⟨(r : Int), (c : Int)⟩ := by
  have e1 : p.row = (r : Int) := by rw [← h1, Int.toNat_of_nonneg hr]
  have e2 : p.column = (c : Int) := by rw [← h2, Int.toNat_of_nonneg hc]
  rw [← e1, ← e2]

theorem slotGetPieceType_some_elim {grid : SlotGrid} {p : SlotPosition} {t : SlotType}
    (h : slotGetPieceType grid p = some t) :
    ∃ (r c : Nat), p = ⟨(r : Int), (c : Int)⟩ ∧ r < grid.length ∧ c < rowLen grid r ∧
      cellD grid r c = t := by
  unfold slotGetPieceType listGetI at h
  by_cases hr : 0 ≤ p.row
  · simp only [if_pos hr, List.get?_eq_getElem?] at h
    cases hrow : grid[p.row.toNat]? with
    | none => rw [hrow] at h; simp at h
    | some row =>
      rw [hrow] at h
      simp only [Option.some_bind] at h
      by_cases hcn : 0 ≤ p.column
      · simp only [if_pos hcn, List.get?_eq_getElem?] at h
        refine ⟨p.row.toNat, p.column.toNat, ?_, ?_, ?_, ?_⟩
        · exact pos_eq_natCast hr hcn rfl rfl
        · exact (List.getElem?_eq_some.mp hrow).1
        · have := (List.getElem?_eq_some.mp h).1
          simpa [rowLen, hrow] using this
        · have h2 := (List.getElem?_eq_some.mp h).2
          have h1 := (List.getElem?_eq_some.mp h).1
          simp [cellD_eq_getD, hrow, List.getD_eq_getElem?_getD,
            List.getElem?_eq_getElem h1, h2]
      · simp [if_neg hcn] at h
  · simp [if_neg hr] at h

theorem length_slotSetPieceType (grid : SlotGrid) (p : SlotPosition) (t : SlotType) :
    (slotSetPieceType grid p t).length = grid.length := by
  unfold slotSetPieceType
  split
  · exact List.length_set ..
  · rfl

theorem rowLen_slotSetPieceType (grid : SlotGrid) (p : SlotPosition) (t : SlotType)
    (r : Nat) : rowLen (slotSetPieceType grid p t) r = rowLen grid r := by
  unfold slotSetPieceType
  split
  · simp only [rowLen, List.get?_eq_getElem?]
    by_cases hR : p.row.toNat = r
    · subst hR
      by_cases hlt : p.row.toNat < grid.length
      · rw [List.getElem?_set_self hlt]
        simp [List.getElem?_eq_getElem hlt]
      · rw [List.set_eq_of_length_le (le_of_not_lt hlt)]
    · rw [List.getElem?_set_ne hR]
  · rfl

theorem cellD_slotSetPieceType_self {grid : SlotGrid} {r c : Nat} (t : SlotType)
    (hr : r < grid.length) (hc : c < rowLen grid r) :
    cellD (slotSetPieceType grid ⟨(r : Int), (c : Int)⟩ t) r c = t := by
  unfold slotSetPieceType
  rw [if_pos (by constructor <;> positivity)]
  have hc' : c < ((grid[r]?).getD []).length := hc
  simp only [cellD_eq_getD, Int.toNat_natCast, List.get?_eq_getElem?,
    List.getElem?_set_self hr]
  simp [List.getD_eq_getElem?_getD, List.getElem?_set_self hc']

theorem cellD_slotSetPieceType_ne {grid : SlotGrid} (p : SlotPosition) (t : SlotType)
    {r c : Nat} (h : p ≠ ⟨(r : Int), (c : Int)⟩) :
    cellD (slotSetPieceType grid p t) r c = cellD grid r c := by
  unfold slotSetPieceType
  split
  · next hpos =>
    obtain ⟨hrow, hcol⟩ := hpos
    simp only [cellD_eq_getD, List.get?_eq_getElem?]
    by_cases hR : p.row.toNat = r
    · have hC : p.column.toNat ≠ c := by
        intro hC
        exact h (pos_eq_natCast hrow hcol hR hC)
      subst hR
      by_cases hlt : p.row.toNat < grid.length
      · rw [List.getElem?_set_self hlt]
        simp only [Option.getD_some]
        simp [List.getD_eq_getElem?_getD, List.getElem?_set_ne hC]
      · rw [List.set_eq_of_length_le (le_of_not_lt hlt)]
    · rw [List.getElem?_set_ne hR]
  · rfl

theorem length_match3SwapPieces (grid : SlotGrid) (a b : SlotPosition) :
    (match3SwapPieces grid a b).length = grid.length := by
  unfold match3SwapPieces
  split
  · rw [length_slotSetPieceType, length_slotSetPieceType]
  · rfl

theorem rowLen_match3SwapPieces (grid : SlotGrid) (a b : SlotPosition) (r : Nat) :
    rowLen (match3SwapPieces grid a b) r = rowLen grid r := by
  unfold match3SwapPieces
  split
  · rw [rowLen_slotSetPieceType, rowLen_slotSetPieceType]
  · rfl

theorem match3SwapPieces_of_none {grid : SlotGrid} {a b : SlotPosition}
    (h : slotGetPieceType grid a = none ∨ slotGetPieceType grid b = none) :
    match3SwapPieces grid a b = grid := by
  unfold match3SwapPieces
  cases ha : slotGetPieceType grid a with
  | none => rfl
  | some ta =>
    cases hb : slotGetPieceType grid b with
    | none => rfl
    | some tb =>
      rcases h with h | h
      · rw [ha] at h; cases h
      · rw [hb] at h; cases h

theorem cellD_match3SwapPieces {grid : SlotGrid} {ra ca rb cb : Nat}
    (hra : ra < grid.length) (hca : ca < rowLen grid ra)
    (hrb : rb < grid.length) (hcb : cb < rowLen grid rb) (r c : Nat) :
    cellD (match3SwapPieces grid ⟨(ra : Int), (ca : Int)⟩ ⟨(rb : Int), (cb : Int)⟩) r c =
      if r = rb ∧ c = cb then cellD grid ra ca
      else if r = ra ∧ c = ca then cellD grid rb cb
      else cellD grid r c := by
  have ha := slotGetPieceType_eq_some grid hra hca
  have hb := slotGetPieceType_eq_some grid hrb hcb
  unfold match3SwapPieces
  rw [ha, hb]
  have hra1 : ra < (slotSetPieceType grid ⟨(ra : Int), (ca : Int)⟩ (cellD grid rb cb)).length := by
    rw [length_slotSetPieceType]; exact hra
  have hca1 : ca < rowLen (slotSetPieceType grid ⟨(ra : Int), (ca : Int)⟩ (cellD grid rb cb)) ra := by
    rw [rowLen_slotSetPieceType]; exact hca
  have hrb1 : rb < (slotSetPieceType grid ⟨(ra : Int), (ca : Int)⟩ (cellD grid rb cb)).length := by
    rw [length_slotSetPieceType]; exact hrb
  have hcb1 : cb < rowLen (slotSetPieceType grid ⟨(ra : Int), (ca : Int)⟩ (cellD grid rb cb)) rb := by
    rw [rowLen_slotSetPieceType]; exact hcb
  by_cases h1 : r = rb ∧ c = cb
  · obtain ⟨rfl, rfl⟩ := h1
    rw [if_pos ⟨rfl, rfl⟩]
    exact cellD_slotSetPieceType_self _ hrb1 hcb1
  · rw [if_neg h1]
    have hne1 : (⟨(rb : Int), (cb : Int)⟩ : SlotPosition) ≠ ⟨(r : Int), (c : Int)⟩ := by
      intro he
      apply h1
      have h1' := congrArg SlotPosition.row he
      have h2' := congrArg SlotPosition.column he
      simp only at h1' h2'
      exact ⟨(Nat.cast_injective h1').symm, (Nat.cast_injective h2').symm⟩
    rw [cellD_slotSetPieceType_ne _ _ hne1]
    by_cases h2 : r = ra ∧ c = ca
    · obtain ⟨rfl, rfl⟩ := h2
      rw [if_pos ⟨rfl, rfl⟩]
      exact cellD_slotSetPieceType_self _ hra hca
    · rw [if_neg h2]
      have hne2 : (⟨(ra : Int), (ca : Int)⟩ : SlotPosition) ≠ ⟨(r : Int), (c : Int)⟩ := by
        intro he
        apply h2
        have h1' := congrArg SlotPosition.row he
        have h2' := congrArg SlotPosition.column he
        simp only at h1' h2'
        exact ⟨(Nat.cast_injective h1').symm, (Nat.cast_injective h2').symm⟩
      rw [cellD_slotSetPieceType_ne _ _ hne2]

/-- Two grids with the same shape and the same cells are equal. -/
theorem grid_ext {g g' : SlotGrid} (hlen : g.length = g'.length)
    (hrow : ∀ j, j < g.length → rowLen g j = rowLen g' j)
    (hcell : ∀ j c, j < g.length → c < rowLen g j → cellD g j c = cellD g' j c) :
    g = g' := by
  apply List.ext_getElem hlen
  intro j hj hj'
  apply List.ext_getElem
  · have := hrow j hj
    simpa [rowLen, List.getElem?_eq_getElem hj, List.getElem?_eq_getElem hj'] using this
  · intro c hc hc'
    have hcl : c < rowLen g j := by
      simpa [rowLen, List.getElem?_eq_getElem hj] using hc
    have := hcell j c hj hcl
    simpa [cellD_eq_getD, List.getElem?_eq_getElem hj, List.getElem?_eq_getElem hj',
      List.getD_eq_getElem?_getD, List.getElem?_eq_getElem hc,
      List.getElem?_eq_getElem hc'] using this

/-- C6 (swap safety): `match3SwapPieces` leaves the grid unchanged whenever one
of the two positions resolves to an undefined cell; when both resolve, the two
cells' type codes are exchanged and a second identical swap restores the grid. -/
theorem match3SwapPieces_safe (grid : SlotGrid) (a b : SlotPosition) :
    (slotGetPieceType grid a = none ∨ slotGetPieceType grid b = none →
      match3SwapPieces grid a b = grid) ∧
    (∀ ta tb, slotGetPieceType grid a = some ta → slotGetPieceType grid b = some tb →
      slotGetPieceType (match3SwapPieces grid a b) a = some tb ∧
      slotGetPieceType (match3SwapPieces grid a b) b = some ta ∧
      match3SwapPieces (match3SwapPieces grid a b) a b = grid) := by
  constructor
  · exact match3SwapPieces_of_none
  · intro ta tb ha hb
    obtain ⟨ra, ca, rfl, hra, hca, hta⟩ := slotGetPieceType_some_elim ha
    obtain ⟨rb, cb, rfl, hrb, hcb, htb⟩ := slotGetPieceType_some_elim hb
    have hlen1 : (match3SwapPieces grid ⟨(ra : Int), (ca : Int)⟩ ⟨(rb : Int), (cb : Int)⟩).length
        = grid.length := length_match3SwapPieces ..
    have hrow1 : ∀ j, rowLen (match3SwapPieces grid ⟨(ra : Int), (ca : Int)⟩
        ⟨(rb : Int), (cb : Int)⟩) j = rowLen grid j := fun j => rowLen_match3SwapPieces ..
    have hdesc := cellD_match3SwapPieces hra hca hrb hcb
    refine ⟨?_, ?_, ?_⟩
    · rw [slotGetPieceType_eq_some _ (hlen1 ▸ hra) ((hrow1 ra) ▸ hca), hdesc ra ca]
      by_cases hab : ra = rb ∧ ca = cb
      · rw [if_pos hab]
        obtain ⟨rfl, rfl⟩ := hab
        rw [htb]
      · rw [if_neg hab, if_pos ⟨rfl, rfl⟩, htb]
    · rw [slotGetPieceType_eq_some _ (hlen1 ▸ hrb) ((hrow1 rb) ▸ hcb), hdesc rb cb,
        if_pos ⟨rfl, rfl⟩, hta]
    · set g1 := match3SwapPieces grid ⟨(ra : Int), (ca : Int)⟩ ⟨(rb : Int), (cb : Int)⟩ with hg1
      have hra1 : ra < g1.length := hlen1 ▸ hra
      have hca1 : ca < rowLen g1 ra := (hrow1 ra) ▸ hca
      have hrb1 : rb < g1.length := hlen1 ▸ hrb
      have hcb1 : cb < rowLen g1 rb := (hrow1 rb) ▸ hcb
      have hdesc1 := cellD_match3SwapPieces hra1 hca1 hrb1 hcb1
      apply grid_ext
      · rw [length_match3SwapPieces, hlen1]
      · intro j _
        rw [rowLen_match3SwapPieces, hrow1]
      · intro j c _ _
        rw [hdesc1 j c]
        by_cases h1 : j = rb ∧ c = cb
        · obtain ⟨rfl, rfl⟩ := h1
          rw [if_pos ⟨rfl, rfl⟩, hdesc ra ca]
          by_cases hab : ra = j ∧ ca = c
          · obtain ⟨rfl, rfl⟩ := hab
            rw [if_pos ⟨rfl, rfl⟩]
          · rw [if_neg hab, if_pos ⟨rfl, rfl⟩]
        · rw [if_neg h1]
          by_cases h2 : j = ra ∧ c = ca
          · obtain ⟨rfl, rfl⟩ := h2
            rw [if_pos ⟨rfl, rfl⟩, hdesc rb cb, if_pos ⟨rfl, rfl⟩]
          · rw [if_neg h2, hdesc j c, if_neg h1, if_neg h2]

/-- Witness for C6 at a concrete grid: position (1, 0) is out of bounds on a
1×2 grid (no-op), and swapping (0, 0) with (0, 1) exchanges the cells and
undoes itself. -/
theorem match3SwapPieces_safe_witness :
    (match3SwapPieces [[4, 7]] ⟨0, 0⟩ ⟨1, 0⟩ = [[4, 7]]) ∧
    (slotGetPieceType (match3SwapPieces [[4, 7]] ⟨0, 0⟩ ⟨0, 1⟩) ⟨0, 0⟩ = some 7 ∧
      slotGetPieceType (match3SwapPieces [[4, 7]] ⟨0, 0⟩ ⟨0, 1⟩) ⟨0, 1⟩ = some 4 ∧
      match3SwapPieces (match3SwapPieces [[4, 7]] ⟨0, 0⟩ ⟨0, 1⟩) ⟨0, 0⟩ ⟨0, 1⟩ = [[4, 7]]) :=
  ⟨(match3SwapPieces_safe [[4, 7]] ⟨0, 0⟩ ⟨1, 0⟩).1 (Or.inr (by decide)),
    (match3SwapPieces_safe [[4, 7]] ⟨0, 0⟩ ⟨0, 1⟩).2 4 7 (by decide) (by decide)⟩

/-- C9 counterexample: with the session playing, an unlocked piece at `from`,
and a *defined* grid type 0 (an empty but in-bounds cell) at `from`, all of the
claim's preconditions hold, yet `actionSpin` silently returns without starting
the processor: the JS guard `if (!typeA) return` also rejects the defined
type 0. -/
theorem actionSpin_claim_counterexample :
    (SlotActionState.mk true [⟨0, 0, false⟩] [[0]]).playing = true ∧
    getPieceByPosition (SlotActionState.mk true [⟨0, 0, false⟩] [[0]]).pieces ⟨0, 0⟩ =
      some ⟨0, 0, false⟩ ∧
    (⟨0, 0, false⟩ : SlotPieceState).locked = false ∧
    slotGetPieceType (SlotActionState.mk true [⟨0, 0, false⟩] [[0]]).grid ⟨0, 0⟩ = some 0 ∧
    (actionSpin (SlotActionState.mk true [⟨0, 0, false⟩] [[0]]) ⟨0, 0⟩ ⟨0, 1⟩).1 = false := by
  decide

/-- C9 amended: `actionSpin` never mutates the observed state, and it reaches
`process.start()` exactly when the session is playing, a piece exists at `from`
and is not locked, and `from`'s grid type is defined *and non-empty (non-zero)*;
on any failed precondition it silently returns. -/
theorem actionSpin_gate (st : SlotActionState) (fromPos toPos : SlotPosition) :
    (actionSpin st fromPos toPos).2 = st ∧
    ((actionSpin st fromPos toPos).1 = true ↔
      st.playing = true ∧
      ∃ pieceA, getPieceByPosition st.pieces fromPos = some pieceA ∧
        pieceA.locked = false ∧
        ∃ t, slotGetPieceType st.grid fromPos = some t ∧ t ≠ 0) := by
  cases hplay : st.playing with
  | false => simp [actionSpin, hplay]
  | true =>
    cases hfind : getPieceByPosition st.pieces fromPos with
    | none => simp [actionSpin, hplay, hfind]
    | some pieceA =>
      cases hlock : pieceA.locked with
      | true => simp [actionSpin, hplay, hfind, hlock]
      | false =>
        cases ht : slotGetPieceType st.grid fromPos with
        | none => simp [actionSpin, hplay, hfind, hlock, ht]
        | some t =>
          cases t with
          | zero => simp [actionSpin, hplay, hfind, hlock, ht]
          | succ n => simp [actionSpin, hplay, hfind, hlock, ht]

/-- C3 counterexample: in "normal" mode the active block list is *not* the five
normal piece names each appearing once — `[...blocks[mode], ...blocks.normal]`
concatenates the normal list with itself, so "piece-dragon" appears twice. -/
theorem slotGetBlocks_claim_counterexample :
    (slotGetBlocks SlotMode.normal).count ("piece-dragon") = 2 ∧
    slotGetBlocks SlotMode.normal ≠ slotBlocksNormal := by decide

/-- C3 amended: the active list is the mode-specific list with the normal list
appended *after* it (the normal list is a suffix, not a prefix); type codes are
assigned index+1 over that ordered list; in "normal" mode the active list is
the five normal names twice, not once. -/
theorem slotGetBlocks_spec (mode : SlotMode) :
    List.IsSuffix slotBlocksNormal (slotGetBlocks mode) ∧
    slotGetBlocks SlotMode.normal = slotBlocksNormal ++ slotBlocksNormal ∧
    (∀ i : Nat, (slotBoardTypesList mode)[i]? =
      (slotGetBlocks mode)[i]?.map fun name => (i + 1, name)) := by
  refine ⟨⟨slotBlocksOf mode, rfl⟩, rfl, fun i => ?_⟩
  by_cases hi : i < (slotGetBlocks mode).length
  · have hi' : i < (slotGetBlocks mode).enum.length := by rwa [List.enum_length]
    have hi'' : i < ((slotGetBlocks mode).enum.map fun ia => (ia.1 + 1, ia.2)).length := by
      rwa [List.length_map, List.enum_length]
    rw [slotBoardTypesList, List.getElem?_eq_getElem hi'', List.getElem?_eq_getElem hi]
    simp [List.getElem_map, List.getElem_enum]
  · have h1 : ((slotGetBlocks mode).enum.map fun ia => (ia.1 + 1, ia.2)).length ≤ i := by
      rw [List.length_map, List.enum_length]; omega
    have h2 : (slotGetBlocks mode).length ≤ i := by omega
    rw [slotBoardTypesList, List.getElem?_eq_none h1, List.getElem?_eq_none h2]
    rfl

/-! ### Shape of the matches produced by the line scan -/

/-- The spec's grid invariant: every row has the same length. -/
def SlotRect (grid : SlotGrid) : Prop := ∀ row ∈ grid, row.length = slotCols grid

instance (grid : SlotGrid) : Decidable (SlotRect grid) := by
  unfold SlotRect
  infer_instance

theorem rowLen_eq_slotCols {grid : SlotGrid} (hrect : SlotRect grid) {j : Nat}
    (hj : j < grid.length) : rowLen grid j = slotCols grid := by
  unfold rowLen
  rw [List.getElem?_eq_getElem hj]
  exact hrect _ (List.getElem_mem hj)

/-- Every match emitted by the run-tracking scan of one line consists of
consecutive positions on that line's row; it is at least `matchSize` long, and
as soon as it has two or more cells they all carry one equal non-zero value. -/
theorem slotScanGo_shape (matchSize : Nat) (r : Int) (f : Nat → SlotType) :
    ∀ (cells : List (SlotPosition × SlotType)) (lastType : Option SlotType)
      (cur : List SlotPosition) (c0 : Nat),
    (∀ i, i < cells.length →
      cells.getD i (⟨0, 0⟩, 0) =
        (⟨r, ((c0 + cur.length + i : Nat) : Int)⟩, f (c0 + cur.length + i))) →
    (∀ i, i < cur.length → cur.getD i ⟨0, 0⟩ = ⟨r, ((c0 + i : Nat) : Int)⟩) →
    (cur ≠ [] → ∃ t, lastType = some t ∧ (2 ≤ cur.length → t ≠ 0) ∧
      ∀ i, i < cur.length → f (c0 + i) = t) →
    ∀ m ∈ slotScanGo matchSize lastType cur cells,
      matchSize ≤ m.length ∧
      ∃ cm, c0 ≤ cm ∧ cm + m.length ≤ c0 + cur.length + cells.length ∧
        (∀ i, i < m.length → m.getD i ⟨0, 0⟩ = ⟨r, ((cm + i : Nat) : Int)⟩) ∧
        (2 ≤ m.length → ∃ t, t ≠ 0 ∧ ∀ i, i < m.length → f (cm + i) = t) := by
  intro cells
  induction cells with
  | nil =>
    intro lastType cur c0 hcells hcur htype m hm
    simp only [slotScanGo] at hm
    split at hm
    · next hms =>
      rw [List.mem_singleton] at hm
      subst hm
      refine ⟨hms, c0, le_refl _, by simp, hcur, fun h2 => ?_⟩
      have hne : m ≠ [] := by
        intro h
        rw [h] at h2
        simp at h2
      obtain ⟨t, _, ht0, hall⟩ := htype hne
      exact ⟨t, ht0 h2, hall⟩
    · simp at hm
  | cons hd rest ih =>
    intro lastType cur c0 hcells hcur htype m hm
    obtain ⟨pos, ty⟩ := hd
    have hhd := hcells 0 (by simp)
    rw [List.getD_cons_zero] at hhd
    have hpos : pos = ⟨r, ((c0 + cur.length : Nat) : Int)⟩ := by
      have := congrArg Prod.fst hhd
      simpa using this
    have hty : ty = f (c0 + cur.length) := by
      have := congrArg Prod.snd hhd
      simpa using this
    simp only [slotScanGo] at hm
    split at hm
    · next hcond =>
      obtain ⟨hty0, hlast⟩ := hcond
      have hres := ih lastType (cur ++ [pos]) c0 ?hcells2 ?hcur2 ?htype2 m hm
      case hcells2 =>
        intro i hi
        have hstep := hcells (i + 1) (by simpa using Nat.succ_lt_succ hi)
        rw [List.getD_cons_succ] at hstep
        rw [hstep]
        have he : c0 + cur.length + (i + 1) = c0 + (cur ++ [pos]).length + i := by
          simp only [List.length_append, List.length_singleton]
          omega
        rw [he]
      case hcur2 =>
        intro i hi
        rw [List.length_append, List.length_singleton] at hi
        rcases Nat.lt_or_ge i cur.length with h | h
        · rw [List.getD_append _ _ _ _ h]
          exact hcur i h
        · have hieq : i = cur.length := by omega
          subst hieq
          rw [List.getD_append_right _ _ _ _ h, Nat.sub_self, List.getD_cons_zero, hpos]
      case htype2 =>
        intro _
        refine ⟨ty, hlast.symm, fun _ => hty0, fun i hi => ?_⟩
        rw [List.length_append, List.length_singleton] at hi
        rcases Nat.lt_or_ge i cur.length with h | h
        · have hne : cur ≠ [] := by
            intro hc
            rw [hc] at h
            simp at h
          obtain ⟨t0, hl0, _, hall⟩ := htype hne
          have heq : ty = t0 := by
            rw [hl0] at hlast
            exact Option.some_inj.mp hlast
          rw [heq]
          exact hall i h
        · have hieq : i = cur.length := by omega
          subst hieq
          exact hty.symm
      obtain ⟨h1, cm, h2, h3, h4, h5⟩ := hres
      refine ⟨h1, cm, h2, ?_, h4, h5⟩
      simp only [List.length_append, List.length_singleton, List.length_cons,
        List.length_nil] at h3 ⊢
      omega
    · rw [List.mem_append] at hm
      rcases hm with hm | hm
      · split at hm
        · next hms =>
          rw [List.mem_singleton] at hm
          subst hm
          refine ⟨hms, c0, le_refl _, ?_, hcur, fun h2 => ?_⟩
          · simp only [List.length_cons]
            omega
          · have hne : m ≠ [] := by
              intro h
              rw [h] at h2
              simp at h2
            obtain ⟨t, _, ht0, hall⟩ := htype hne
            exact ⟨t, ht0 h2, hall⟩
        · simp at hm
      · have hres := ih (some ty) [pos] (c0 + cur.length) ?hcells3 ?hcur3 ?htype3 m hm
        case hcells3 =>
          intro i hi
          have hstep := hcells (i + 1) (by simpa using Nat.succ_lt_succ hi)
          rw [List.getD_cons_succ] at hstep
          rw [hstep]
          have he : c0 + cur.length + (i + 1) = c0 + cur.length + [pos].length + i := by
            simp only [List.length_singleton]
            omega
          rw [he]
        case hcur3 =>
          intro i hi
          simp only [List.length_singleton] at hi
          have hieq : i = 0 := by omega
          subst hieq
          rw [List.getD_cons_zero, hpos, Nat.add_zero]
        case htype3 =>
          intro _
          refine ⟨ty, rfl, fun h2 => ?_, fun i hi => ?_⟩
          · simp at h2
          · simp only [List.length_singleton] at hi
            have hieq : i = 0 := by omega
            subst hieq
            rw [Nat.add_zero]
            exact hty.symm
        obtain ⟨h1, cm, h2, h3, h4, h5⟩ := hres
        refine ⟨h1, cm, by omega, ?_, h4, h5⟩
        simp only [List.length_singleton, List.length_cons, List.length_nil] at h3 ⊢
        omega

theorem slotGetMatches_subset_horizontal {grid : SlotGrid}
    {filter : Option (List SlotPosition)} {matchSize : Nat} {m : List SlotPosition}
    (hm : m ∈ slotGetMatches grid filter matchSize) :
    m ∈ slotGetMatchesByOrientation grid matchSize SlotOrientation.horizontal := by
  unfold slotGetMatches at hm
  cases filter with
  | none => exact hm
  | some fps => exact (List.mem_filter.mp hm).1

theorem mem_horizontal_elim {grid : SlotGrid} {matchSize : Nat} {m : List SlotPosition}
    (hm : m ∈ slotGetMatchesByOrientation grid matchSize SlotOrientation.horizontal) :
    ∃ p, p < grid.length ∧
      m ∈ slotScanGo matchSize none []
        ((List.range (slotCols grid)).map fun (s : Nat) =>
          ((⟨(p : Int), (s : Int)⟩ : SlotPosition), cellD grid p s)) := by
  unfold slotGetMatchesByOrientation at hm
  simp only [if_pos rfl, List.mem_flatten, List.mem_map] at hm
  obtain ⟨line, ⟨p, hp, hline⟩, hmline⟩ := hm
  refine ⟨p, List.mem_range.mp hp, ?_⟩
  rw [← hline] at hmline
  exact hmline

/-- The master shape fact for every match `slotGetMatches` returns: it comes
from the horizontal scan of some row `p` of the grid, is at least `matchSize`
long, occupies consecutive in-range columns `cm, cm+1, …` of row `p`, and (as
soon as it has ≥ 2 cells) all its cells hold one equal non-zero value. -/
theorem slotGetMatches_shape_master {grid : SlotGrid}
    {filter : Option (List SlotPosition)} {matchSize : Nat} {m : List SlotPosition}
    (hm : m ∈ slotGetMatches grid filter matchSize) :
    ∃ p, p < grid.length ∧ matchSize ≤ m.length ∧
      ∃ cm, cm + m.length ≤ slotCols grid ∧
        (∀ i, i < m.length → m.getD i ⟨0, 0⟩ = ⟨(p : Int), ((cm + i : Nat) : Int)⟩) ∧
        (2 ≤ m.length → ∃ t, t ≠ 0 ∧ ∀ i, i < m.length → cellD grid p (cm + i) = t) := by
  obtain ⟨p, hp, hscan⟩ := mem_horizontal_elim (slotGetMatches_subset_horizontal hm)
  have hres := slotScanGo_shape matchSize (p : Int) (fun c => cellD grid p c)
    ((List.range (slotCols grid)).map fun (s : Nat) =>
      ((⟨(p : Int), (s : Int)⟩ : SlotPosition), cellD grid p s)) none [] 0
    ?hcells ?hcur ?htype m hscan
  case hcells =>
    intro i hi
    rw [List.length_map, List.length_range] at hi
    have hi' : i < ((List.range (slotCols grid)).map fun (s : Nat) =>
        ((⟨(p : Int), (s : Int)⟩ : SlotPosition), cellD grid p s)).length := by
      rw [List.length_map, List.length_range]
      exact hi
    rw [List.getD_eq_getElem _ _ hi', List.getElem_map]
    simp [List.getElem_range]
  case hcur => intro i hi; simp at hi
  case htype => intro h; exact absurd rfl h
  obtain ⟨h1, cm, _, h3, h4, h5⟩ := hres
  refine ⟨p, hp, h1, cm, ?_, h4, h5⟩
  simp only [List.length_map, List.length_range, List.length_nil] at h3
  omega

/-- C5 (amended, match shape): for every rectangular grid, every filter and
every `matchSize ≥ 2`, each match returned by `slotGetMatches` has length ≥
`matchSize`, its positions all share one row and occupy consecutive columns
(contiguous along the horizontal axis), and all of its cells hold the same
non-zero type code. (With `matchSize = 1` the scan can emit a single empty
cell as a match, so the non-zero clause needs `matchSize ≥ 2`.) -/
theorem slotGetMatches_match_shape (grid : SlotGrid)
    (filter : Option (List SlotPosition)) (matchSize : Nat)
    (hrect : SlotRect grid) (hms : 2 ≤ matchSize) :
    ∀ m ∈ slotGetMatches grid filter matchSize,
      matchSize ≤ m.length ∧
      ∃ (r cm : Nat) (t : SlotType), t ≠ 0 ∧
        (∀ i, i < m.length → m.getD i ⟨0, 0⟩ = ⟨(r : Int), ((cm + i : Nat) : Int)⟩) ∧
        (∀ q ∈ m, slotGetPieceType grid q = some t) := by
  intro m hm
  obtain ⟨p, hp, h1, cm, hbound, hpos, htype⟩ := slotGetMatches_shape_master hm
  obtain ⟨t, ht0, hval⟩ := htype (le_trans hms h1)
  refine ⟨h1, p, cm, t, ht0, hpos, fun q hq => ?_⟩
  obtain ⟨i, hi, hqi⟩ := List.mem_iff_getElem.mp hq
  have hq' : q = (⟨(p : Int), ((cm + i : Nat) : Int)⟩ : SlotPosition) := by
    rw [← hqi, ← List.getD_eq_getElem m ⟨0, 0⟩ hi]
    exact hpos i hi
  subst hq'
  have hci : cm + i < rowLen grid p := by
    rw [rowLen_eq_slotCols hrect hp]
    omega
  rw [slotGetPieceType_eq_some grid hp hci, hval i hi]

/-- Witness for C5 on the spec's example grid: its unique match of size 3. -/
theorem slotGetMatches_match_shape_witness :
    3 ≤ ([⟨0, 0⟩, ⟨0, 1⟩, ⟨0, 2⟩] : List SlotPosition).length ∧
    ∃ (r cm : Nat) (t : SlotType), t ≠ 0 ∧
      (∀ i, i < ([⟨0, 0⟩, ⟨0, 1⟩, ⟨0, 2⟩] : List SlotPosition).length →
        ([⟨0, 0⟩, ⟨0, 1⟩, ⟨0, 2⟩] : List SlotPosition).getD i ⟨0, 0⟩ =
          ⟨(r : Int), ((cm + i : Nat) : Int)⟩) ∧
      (∀ q ∈ ([⟨0, 0⟩, ⟨0, 1⟩, ⟨0, 2⟩] : List SlotPosition),
        slotGetPieceType [[1, 1, 1], [2, 3, 2], [3, 2, 3]] q = some t) :=
  slotGetMatches_match_shape [[1, 1, 1], [2, 3, 2], [3, 2, 3]] none 3
    (by decide) (by decide) [⟨0, 0⟩, ⟨0, 1⟩, ⟨0, 2⟩] (by decide)

/-- C5 counterexample (claim as stated, over *every* `matchSize`): with
`matchSize = 1` the scan returns the single empty cell of the grid `[[0]]` as a
match, whose cell holds type 0 — not a non-zero type code. -/
theorem slotGetMatches_claim_counterexample :
    [(⟨0, 0⟩ : SlotPosition)] ∈ slotGetMatches [[0]] none 1 ∧
    slotGetPieceType [[0]] ⟨0, 0⟩ = some 0 := by decide

/-- C10 (horizontal-only matching): every match returned by `slotGetMatches`
is row-aligned — all its positions share one row — because only the horizontal
orientation scan contributes to the result. -/
theorem slotGetMatches_row_aligned (grid : SlotGrid)
    (filter : Option (List SlotPosition)) (matchSize : Nat) :
    ∀ m ∈ slotGetMatches grid filter matchSize,
      ∃ r : Nat, ∀ q ∈ m, q.row = (r : Int) := by
  intro m hm
  obtain ⟨p, _, _, cm, _, hpos, _⟩ := slotGetMatches_shape_master hm
  refine ⟨p, fun q hq => ?_⟩
  obtain ⟨i, hi, hqi⟩ := List.mem_iff_getElem.mp hq
  have hq' : q = (⟨(p : Int), ((cm + i : Nat) : Int)⟩ : SlotPosition) := by
    rw [← hqi, ← List.getD_eq_getElem m ⟨0, 0⟩ hi]
    exact hpos i hi
  rw [hq']

/-- Witness for C10: the vertical run of 2s in this grid is never returned;
the only match is row-aligned on row 0. -/
theorem slotGetMatches_row_aligned_witness :
    ∃ r : Nat, ∀ q ∈ ([⟨0, 0⟩, ⟨0, 1⟩, ⟨0, 2⟩] : List SlotPosition),
      q.row = (r : Int) :=
  slotGetMatches_row_aligned [[1, 1, 1], [2, 3, 2], [3, 2, 3]] none 3
    [⟨0, 0⟩, ⟨0, 1⟩, ⟨0, 2⟩] (by decide)

/-! ### Fill-up characterisation -/

theorem rowMajorIdx_eq_product (rows columns : Nat) :
    rowMajorIdx rows columns = List.range rows ×ˢ List.range columns := by
  simp [rowMajorIdx, SProd.sprod, List.product, List.flatMap_def]

theorem rowMajorIdx_nodup (rows columns : Nat) : (rowMajorIdx rows columns).Nodup := by
  rw [rowMajorIdx_eq_product]
  exact (List.nodup_range rows).product (List.nodup_range columns)

theorem rowMajorIdx_mem {rows columns a b : Nat} :
    (a, b) ∈ rowMajorIdx rows columns ↔ a < rows ∧ b < columns := by
  rw [rowMajorIdx_eq_product, List.mem_product, List.mem_range, List.mem_range]

/-- What the `slotFillUp` double loop computes, for any duplicate-free list of
in-bounds cell indices: each listed empty cell receives the helper grid's
value, everything else is untouched, and the recorded positions are exactly
the listed cells that were empty beforehand, in list order. -/
theorem slotFillUp_foldl_char (temp : SlotGrid) :
    ∀ (L : List (Nat × Nat)) (g : SlotGrid) (acc : List SlotPosition),
    L.Nodup →
    (∀ rc ∈ L, rc.1 < g.length ∧ rc.2 < rowLen g rc.1) →
    ((L.foldl (slotFillUpStep temp) (g, acc)).1.length = g.length) ∧
    (∀ j, rowLen (L.foldl (slotFillUpStep temp) (g, acc)).1 j = rowLen g j) ∧
    (∀ r c, cellD (L.foldl (slotFillUpStep temp) (g, acc)).1 r c =
      if (r, c) ∈ L ∧ cellD g r c = 0 then cellD temp r c else cellD g r c) ∧
    ((L.foldl (slotFillUpStep temp) (g, acc)).2 =
      acc ++ (L.filter fun rc => cellD g rc.1 rc.2 = 0).map
        fun rc => (⟨(rc.1 : Int), (rc.2 : Int)⟩ : SlotPosition)) := by
  intro L
  induction L with
  | nil =>
    intro g acc _ _
    refine ⟨rfl, fun j => rfl, fun r c => ?_, by simp⟩
    simp
  | cons rc L' ih =>
    intro g acc hnd hbnd
    obtain ⟨a, b⟩ := rc
    obtain ⟨hnotin, hnd'⟩ := List.nodup_cons.mp hnd
    have hab := hbnd (a, b) (List.mem_cons_self ..)
    rw [List.foldl_cons]
    by_cases hz : cellD g a b = 0
    · have hstep : slotFillUpStep temp (g, acc) (a, b) =
          (slotSetPieceType g ⟨(a : Int), (b : Int)⟩ (cellD temp a b),
            acc ++ [⟨(a : Int), (b : Int)⟩]) := by
        simp [slotFillUpStep, hz]
      rw [hstep]
      have hlen1 : (slotSetPieceType g ⟨(a : Int), (b : Int)⟩ (cellD temp a b)).length
          = g.length := length_slotSetPieceType ..
      have hrow1 : ∀ j, rowLen (slotSetPieceType g ⟨(a : Int), (b : Int)⟩ (cellD temp a b)) j
          = rowLen g j := fun j => rowLen_slotSetPieceType ..
      have hcellself :
          cellD (slotSetPieceType g ⟨(a : Int), (b : Int)⟩ (cellD temp a b)) a b
            = cellD temp a b := cellD_slotSetPieceType_self _ hab.1 hab.2
      have hcellne : ∀ r c, ¬(r = a ∧ c = b) →
          cellD (slotSetPieceType g ⟨(a : Int), (b : Int)⟩ (cellD temp a b)) r c
            = cellD g r c := by
        intro r c hne
        apply cellD_slotSetPieceType_ne
        intro he
        apply hne
        have h1 := congrArg SlotPosition.row he
        have h2 := congrArg SlotPosition.column he
        simp only at h1 h2
        exact ⟨(Nat.cast_injective h1).symm, (Nat.cast_injective h2).symm⟩
      have hres := ih (slotSetPieceType g ⟨(a : Int), (b : Int)⟩ (cellD temp a b))
        (acc ++ [⟨(a : Int), (b : Int)⟩]) hnd' ?bnd
      case bnd =>
        intro rc' hrc'
        have hb' := hbnd rc' (List.mem_cons_of_mem _ hrc')
        rw [hlen1, hrow1]
        exact hb'
      obtain ⟨k1, k2, k3, k4⟩ := hres
      refine ⟨by rw [k1, hlen1], fun j => by rw [k2 j, hrow1 j], fun r c => ?_, ?_⟩
      · rw [k3 r c]
        by_cases hrc : r = a ∧ c = b
        · obtain ⟨rfl, rfl⟩ := hrc
          rw [if_neg (fun hcon => hnotin hcon.1), hcellself,
            if_pos ⟨List.mem_cons_self .., hz⟩]
        · rw [hcellne r c hrc]
          by_cases hin : (r, c) ∈ L' ∧ cellD g r c = 0
          · rw [if_pos hin, if_pos ⟨List.mem_cons_of_mem _ hin.1, hin.2⟩]
          · have hneg : ¬((r, c) ∈ (a, b) :: L' ∧ cellD g r c = 0) := by
              intro hcon
              rcases List.mem_cons.mp hcon.1 with he | hmem
              · exact hrc ⟨congrArg Prod.fst he, congrArg Prod.snd he⟩
              · exact hin ⟨hmem, hcon.2⟩
            rw [if_neg hin, if_neg hneg]
      · rw [k4]
        have hfc : (L'.filter fun rc' =>
              cellD (slotSetPieceType g ⟨(a : Int), (b : Int)⟩ (cellD temp a b)) rc'.1 rc'.2 = 0) =
            (L'.filter fun rc' => cellD g rc'.1 rc'.2 = 0) := by
          apply List.filter_congr
          intro x hx
          have hxne : ¬(x.1 = a ∧ x.2 = b) := by
            intro hcon
            apply hnotin
            have hxx : x = (a, b) := Prod.ext hcon.1 hcon.2
            rw [← hxx]
            exact hx
          rw [hcellne x.1 x.2 hxne]
        rw [hfc, List.filter_cons, if_pos (by simpa using hz), List.map_cons,
          List.append_assoc, List.singleton_append]
    · have hstep : slotFillUpStep temp (g, acc) (a, b) = (g, acc) := by
        simp [slotFillUpStep, hz]
      rw [hstep]
      have hres := ih g acc hnd' (fun rc' h => hbnd rc' (List.mem_cons_of_mem _ h))
      obtain ⟨k1, k2, k3, k4⟩ := hres
      refine ⟨k1, k2, fun r c => ?_, ?_⟩
      · rw [k3 r c]
        by_cases hin : (r, c) ∈ L' ∧ cellD g r c = 0
        · rw [if_pos hin, if_pos ⟨List.mem_cons_of_mem _ hin.1, hin.2⟩]
        · have hneg : ¬((r, c) ∈ (a, b) :: L' ∧ cellD g r c = 0) := by
            intro hcon
            rcases List.mem_cons.mp hcon.1 with he | hmem
            · have h1 : r = a := congrArg Prod.fst he
              have h2 : c = b := congrArg Prod.snd he
              subst h1
              subst h2
              exact hz hcon.2
            · exact hin ⟨hmem, hcon.2⟩
          rw [if_neg hin, if_neg hneg]
      · rw [k4, List.filter_cons, if_neg (by simpa using hz)]

theorem slotFillUp_def (grid : SlotGrid) (types : List SlotType) (rand : Nat → Nat → Nat) :
    slotFillUp grid types rand =
      (((rowMajorIdx grid.length (slotCols grid)).foldl
          (slotFillUpStep (match3CreateGrid grid.length (slotCols grid) types rand))
          (grid, [])).1,
        ((rowMajorIdx grid.length (slotCols grid)).foldl
          (slotFillUpStep (match3CreateGrid grid.length (slotCols grid) types rand))
          (grid, [])).2.reverse) := rfl

theorem cellD_match3CreateGrid (rows columns : Nat) (types : List SlotType)
    (rand : Nat → Nat → Nat) {r c : Nat} (hr : r < rows) (hc : c < columns) :
    cellD (match3CreateGrid rows columns types rand) r c =
      slotGetRandomType types (rand r c) := by
  rw [cellD_eq_getD, match3CreateGrid, List.getElem?_map, List.getElem?_range hr]
  simp only [Option.map_some', Option.getD_some]
  rw [List.getD_eq_getElem?_getD, List.getElem?_map, List.getElem?_range hc]
  rfl

theorem slotGetEmptyPositions_eq (grid : SlotGrid) :
    slotGetEmptyPositions grid =
      ((rowMajorIdx grid.length (slotCols grid)).filter fun rc =>
          cellD grid rc.1 rc.2 = 0).map
        fun rc => (⟨(rc.1 : Int), (rc.2 : Int)⟩ : SlotPosition) := by
  show ((List.range grid.length).map fun r =>
    ((List.range (slotCols grid)).filter fun c => cellD grid r c = 0).map fun (c : Nat) =>
      (⟨(r : Int), (c : Int)⟩ : SlotPosition)).flatten = _
  rw [rowMajorIdx, List.filter_flatten, List.map_flatten, List.map_map, List.map_map]
  congr 1
  apply List.map_congr_left
  intro r _
  simp only [Function.comp]
  rw [List.filter_map, List.map_map]
  rfl

theorem rowMajorIdx_bounds {grid : SlotGrid} (hrect : SlotRect grid) :
    ∀ rc ∈ rowMajorIdx grid.length (slotCols grid),
      rc.1 < grid.length ∧ rc.2 < rowLen grid rc.1 := by
  intro rc hrc
  obtain ⟨a, b⟩ := rc
  have hm := rowMajorIdx_mem.mp hrc
  exact ⟨hm.1, by rw [rowLen_eq_slotCols hrect hm.1]; exact hm.2⟩

/-- C7 (fill completeness): for every rectangular grid and every list of
non-zero types (with in-range random draws), after `slotFillUp` no cell holds
the empty value 0, the number of returned positions equals the number of empty
cells beforehand, and non-empty cells are left unchanged. -/
theorem slotFillUp_complete (grid : SlotGrid) (types : List SlotType)
    (rand : Nat → Nat → Nat) (hrect : SlotRect grid)
    (htypes : ∀ t ∈ types, t ≠ 0) (hrand : ∀ r c, rand r c < types.length) :
    (∀ r c, r < grid.length → c < slotCols grid →
      cellD (slotFillUp grid types rand).1 r c ≠ 0) ∧
    ((slotFillUp grid types rand).2.length = (slotGetEmptyPositions grid).length) ∧
    (∀ r c, r < grid.length → c < slotCols grid → cellD grid r c ≠ 0 →
      cellD (slotFillUp grid types rand).1 r c = cellD grid r c) := by
  obtain ⟨-, -, k3, k4⟩ := slotFillUp_foldl_char
    (match3CreateGrid grid.length (slotCols grid) types rand)
    (rowMajorIdx grid.length (slotCols grid)) grid []
    (rowMajorIdx_nodup ..) (rowMajorIdx_bounds hrect)
  have htemp : ∀ r c, r < grid.length → c < slotCols grid →
      cellD (match3CreateGrid grid.length (slotCols grid) types rand) r c ≠ 0 := by
    intro r c hr hc
    rw [cellD_match3CreateGrid _ _ _ _ hr hc]
    have hlt := hrand r c
    rw [slotGetRandomType, List.getD_eq_getElem _ _ hlt]
    exact htypes _ (List.getElem_mem hlt)
  refine ⟨?_, ?_, ?_⟩
  · intro r c hr hc
    rw [slotFillUp_def]
    rw [k3 r c]
    split
    · exact htemp r c hr hc
    · next hcon =>
      intro h0
      exact hcon ⟨rowMajorIdx_mem.mpr ⟨hr, hc⟩, h0⟩
  · rw [slotFillUp_def]
    simp only [k4, List.nil_append, List.length_reverse, slotGetEmptyPositions_eq,
      List.length_map]
  · intro r c _ _ hne
    rw [slotFillUp_def]
    rw [k3 r c, if_neg (fun hcon => hne hcon.2)]

/-- Witness for C7 on the grid `[[0, 1], [2, 0]]` with the single type list
`[5]`. -/
theorem slotFillUp_complete_witness :
    cellD (slotFillUp [[0, 1], [2, 0]] [5] (fun _ _ => 0)).1 0 0 ≠ 0 ∧
    (slotFillUp [[0, 1], [2, 0]] [5] (fun _ _ => 0)).2.length =
      (slotGetEmptyPositions [[0, 1], [2, 0]]).length ∧
    cellD (slotFillUp [[0, 1], [2, 0]] [5] (fun _ _ => 0)).1 0 1 =
      cellD [[0, 1], [2, 0]] 0 1 :=
  ⟨(slotFillUp_complete [[0, 1], [2, 0]] [5] (fun _ _ => 0) (by decide)
      (by decide) (fun _ _ => Nat.one_pos)).1 0 0 (by decide) (by decide),
    (slotFillUp_complete [[0, 1], [2, 0]] [5] (fun _ _ => 0) (by decide)
      (by decide) (fun _ _ => Nat.one_pos)).2.1,
    (slotFillUp_complete [[0, 1], [2, 0]] [5] (fun _ _ => 0) (by decide)
      (by decide) (fun _ _ => Nat.one_pos)).2.2 0 1 (by decide) (by decide) (by decide)⟩

/-- C8 (fill ordering): for every rectangular grid, `slotFillUp` returns
exactly the positions that were empty beforehand, in reverse of the row-major
scan order, and each such cell receives verbatim the value of the freshly
generated helper grid at the same position. -/
theorem slotFillUp_ordering (grid : SlotGrid) (types : List SlotType)
    (rand : Nat → Nat → Nat) (hrect : SlotRect grid) :
    (slotFillUp grid types rand).2 = (slotGetEmptyPositions grid).reverse ∧
    (∀ r c, r < grid.length → c < slotCols grid → cellD grid r c = 0 →
      cellD (slotFillUp grid types rand).1 r c =
        cellD (match3CreateGrid grid.length (slotCols grid) types rand) r c) := by
  obtain ⟨-, -, k3, k4⟩ := slotFillUp_foldl_char
    (match3CreateGrid grid.length (slotCols grid) types rand)
    (rowMajorIdx grid.length (slotCols grid)) grid []
    (rowMajorIdx_nodup ..) (rowMajorIdx_bounds hrect)
  constructor
  · rw [slotFillUp_def]
    simp only [k4, List.nil_append, slotGetEmptyPositions_eq]
  · intro r c hr hc h0
    rw [slotFillUp_def]
    rw [k3 r c, if_pos ⟨rowMajorIdx_mem.mpr ⟨hr, hc⟩, h0⟩]

/-- Witness for C8 on the grid `[[0, 1], [2, 0]]`: the returned positions are
the two empty cells in reverse row-major order, and cell (0, 0) receives the
helper grid's value. -/
theorem slotFillUp_ordering_witness :
    (slotFillUp [[0, 1], [2, 0]] [5] (fun _ _ => 0)).2 =
      (slotGetEmptyPositions [[0, 1], [2, 0]]).reverse ∧
    cellD (slotFillUp [[0, 1], [2, 0]] [5] (fun _ _ => 0)).1 0 0 =
      cellD (match3CreateGrid 2 2 [5] (fun _ _ => 0)) 0 0 :=
  ⟨(slotFillUp_ordering [[0, 1], [2, 0]] [5] (fun _ _ => 0) (by decide)).1,
    (slotFillUp_ordering [[0, 1], [2, 0]] [5] (fun _ _ => 0) (by decide)).2
      0 0 (by decide) (by decide) (by decide)⟩

/-! ### Gravity: column-level analysis -/

/-- Column `c` of a grid, read top to bottom with default 0. -/
def colOf (grid : SlotGrid) (c : Nat) : List SlotType :=
  grid.map fun row => row.getD c 0

/-- The inner gravity `while` loop, projected onto one column: keep swapping
the moving cell with the (empty) cell below while in bounds. -/
def colWhile (fuel : Nat) (cl : List SlotType) (r : Nat) : List SlotType × Nat :=
  match fuel with
  | 0 => (cl, r)
  | fuel + 1 =>
    if r + 1 < cl.length ∧ cl.getD (r + 1) 0 = 0 then
      colWhile fuel ((cl.set r (cl.getD (r + 1) 0)).set (r + 1) (cl.getD r 0)) (r + 1)
    else (cl, r)

theorem colWhile_stop {fuel : Nat} {cl : List SlotType} {r : Nat}
    (h : ¬(r + 1 < cl.length ∧ cl.getD (r + 1) 0 = 0)) :
    colWhile fuel cl r = (cl, r) := by
  cases fuel with
  | zero => rfl
  | succ m => simp only [colWhile, if_neg h]

theorem set_append_length {α : Type} (P : List α) (x y : α) (l : List α) :
    (P ++ x :: l).set P.length y = P ++ y :: l := by
  induction P with
  | nil => rfl
  | cons p Q ih => simp [ih]

theorem getD_append_length {α : Type} (P : List α) (x : α) (l : List α) (d : α) :
    (P ++ x :: l).getD P.length d = x := by
  rw [List.getD_append_right _ _ _ _ (le_refl _), Nat.sub_self, List.getD_cons_zero]

/-- Running the gravity while loop at row `r = P.length` on a column whose part
below `r` is already compacted (`k` empties on top of non-empty `ws`): the cell
value `v` falls through the `k` empties, and the final row index is `r + k`. -/
theorem colWhile_compute :
    ∀ (k fuel : Nat) (P ws : List SlotType) (v : SlotType),
    k ≤ fuel → (∀ w ∈ ws, w ≠ 0) →
    (colWhile fuel (P ++ v :: (List.replicate k 0 ++ ws)) P.length).1 =
      P ++ (if v = 0 then List.replicate (k + 1) 0 ++ ws
        else List.replicate k 0 ++ v :: ws) ∧
    (colWhile fuel (P ++ v :: (List.replicate k 0 ++ ws)) P.length).2 = P.length + k := by
  intro k
  induction k with
  | zero =>
    intro fuel P ws v _ hws
    have hstop : ¬(P.length + 1 < (P ++ v :: (List.replicate 0 0 ++ ws)).length ∧
        (P ++ v :: (List.replicate 0 0 ++ ws)).getD (P.length + 1) 0 = 0) := by
      cases ws with
      | nil => simp
      | cons w ws' =>
        intro hcon
        apply hws w (List.mem_cons_self ..)
        have he : P ++ v :: (List.replicate 0 0 ++ w :: ws') =
            (P ++ [v]) ++ w :: ws' := by simp
        have hg := hcon.2
        rw [he] at hg
        have hl : (P ++ [v]).length = P.length + 1 := by simp
        rw [← hl, getD_append_length] at hg
        exact hg
    rw [colWhile_stop hstop]
    constructor
    · by_cases hv : v = 0
      · subst hv
        simp
      · rw [if_neg hv]
        simp
    · simp
  | succ k ih =>
    intro fuel P ws v hk hws
    cases fuel with
    | zero => exact absurd hk (by omega)
    | succ m =>
      have hsplit : P ++ v :: (List.replicate (k + 1) 0 ++ ws) =
          (P ++ [v]) ++ 0 :: (List.replicate k 0 ++ ws) := by
        simp [List.replicate_succ]
      have hcond : P.length + 1 < (P ++ v :: (List.replicate (k + 1) 0 ++ ws)).length ∧
          (P ++ v :: (List.replicate (k + 1) 0 ++ ws)).getD (P.length + 1) 0 = 0 := by
        constructor
        · simp [List.length_append, List.length_replicate]
        · rw [hsplit]
          have hl : (P ++ [v]).length = P.length + 1 := by simp
          rw [← hl, getD_append_length]
      have hgetr : (P ++ v :: (List.replicate (k + 1) 0 ++ ws)).getD P.length 0 = v :=
        getD_append_length ..
      simp only [colWhile]
      rw [if_pos hcond, hgetr, hcond.2]
      have hswap : (((P ++ v :: (List.replicate (k + 1) 0 ++ ws)).set P.length 0).set
          (P.length + 1) v) = (P ++ [0]) ++ v :: (List.replicate k 0 ++ ws) := by
        rw [set_append_length]
        have h2 : P ++ 0 :: (List.replicate (k + 1) 0 ++ ws) =
            (P ++ [0]) ++ 0 :: (List.replicate k 0 ++ ws) := by
          simp [List.replicate_succ]
        rw [h2]
        have h3 : (P ++ [0]).length = P.length + 1 := by simp
        rw [← h3, set_append_length]
      rw [hswap]
      have h3 : P.length + 1 = (P ++ [0]).length := by simp
      rw [h3]
      obtain ⟨ih1, ih2⟩ := ih m (P ++ [0]) ws v (by omega) hws
      constructor
      · rw [ih1]
        by_cases hv : v = 0
        · rw [if_pos hv, if_pos hv]
          simp [List.replicate_succ]
        · rw [if_neg hv, if_neg hv]
          simp [List.replicate_succ]
      · rw [ih2]
        simp
        omega

/-- One full bottom-up pass of the gravity loop over a column whose suffix
below the remaining rows is already compacted yields the fully compacted
column: all empties on top, the non-empty values in original order below. -/
theorem colPass_go :
    ∀ (m n : Nat) (cl : List SlotType), cl.length = n → m ≤ n →
    (∃ j ws, cl.drop m = List.replicate j 0 ++ ws ∧ ∀ w ∈ ws, w ≠ 0) →
    (List.range m).reverse.foldl (fun l r => (colWhile n l r).1) cl =
      List.replicate (cl.count 0) 0 ++ cl.filter (fun x => x ≠ 0) := by
  intro m
  induction m with
  | zero =>
    intro n cl _ _ hsuf
    obtain ⟨j, ws, hdrop, hws⟩ := hsuf
    rw [List.drop_zero] at hdrop
    simp only [List.range_zero, List.reverse_nil, List.foldl_nil]
    rw [hdrop]
    have hwc : ws.count 0 = 0 := by
      rw [List.count_eq_zero]
      intro hmem
      exact hws 0 hmem rfl
    have hcount : (List.replicate j 0 ++ ws).count 0 = j := by
      rw [List.count_append, List.count_replicate]
      simp [hwc]
    have hfilter : (List.replicate j 0 ++ ws).filter (fun x => x ≠ 0) = ws := by
      rw [List.filter_append, List.filter_replicate]
      simp
      intro a ha
      exact hws a ha
    rw [hcount, hfilter]
  | succ m ih =>
    intro n cl hlen hm hsuf
    obtain ⟨j, ws, hdrop, hws⟩ := hsuf
    have hrange : (List.range (m + 1)).reverse = m :: (List.range m).reverse := by
      rw [List.range_succ, List.reverse_append]
      rfl
    rw [hrange, List.foldl_cons]
    have hmlt : m < cl.length := by omega
    have hdecomp : cl = cl.take m ++ cl[m] :: (List.replicate j 0 ++ ws) := by
      rw [← hdrop, ← List.drop_eq_getElem_cons hmlt, List.take_append_drop]
    have htl : (cl.take m).length = m := by
      rw [List.length_take]
      omega
    have hn : n = m + 1 + j + ws.length := by
      have hdl := congrArg List.length hdecomp
      simp only [List.length_append, List.length_cons, List.length_replicate, htl,
        hlen] at hdl
      omega
    have hj : j ≤ n := by omega
    have hcw := colWhile_compute j n (cl.take m) ws cl[m] hj hws
    rw [htl] at hcw
    have hstep : (colWhile n cl m).1 =
        cl.take m ++ (if cl[m] = 0 then List.replicate (j + 1) 0 ++ ws
          else List.replicate j 0 ++ cl[m] :: ws) := by
      conv_lhs => rw [hdecomp]
      exact hcw.1
    rw [hstep]
    set cl1 := cl.take m ++ (if cl[m] = 0 then List.replicate (j + 1) 0 ++ ws
      else List.replicate j 0 ++ cl[m] :: ws) with hcl1
    have hlen1 : cl1.length = n := by
      rw [hcl1]
      by_cases hv : cl[m] = 0
      · rw [if_pos hv]
        simp only [List.length_append, List.length_replicate, htl]
        omega
      · rw [if_neg hv]
        simp only [List.length_append, List.length_replicate, List.length_cons, htl]
        omega
    have hsuf1 : ∃ j' ws', cl1.drop m = List.replicate j' 0 ++ ws' ∧
        ∀ w ∈ ws', w ≠ 0 := by
      by_cases hv : cl[m] = 0
      · refine ⟨j + 1, ws, ?_, hws⟩
        rw [hcl1, if_pos hv]
        have hdl := List.drop_left (cl.take m) (List.replicate (j + 1) 0 ++ ws)
        rwa [htl] at hdl
      · refine ⟨j, cl[m] :: ws, ?_, ?_⟩
        · rw [hcl1, if_neg hv]
          have hdl := List.drop_left (cl.take m) (List.replicate j 0 ++ cl[m] :: ws)
          rwa [htl] at hdl
        · intro w hw
          rcases List.mem_cons.mp hw with h | h
          · rw [h]
            exact hv
          · exact hws w h
    have hres := ih n cl1 hlen1 (by omega) hsuf1
    rw [hres]
    have hcount : cl1.count 0 = cl.count 0 := by
      conv_rhs => rw [hdecomp]
      rw [hcl1]
      by_cases hv : cl[m] = 0
      · rw [if_pos hv, hv]
        simp [List.count_append, List.count_cons, List.count_replicate]
        omega
      · rw [if_neg hv]
        simp [List.count_append, List.count_cons, List.count_replicate, hv]
    have hfilter : cl1.filter (fun x => x ≠ 0) = cl.filter (fun x => x ≠ 0) := by
      conv_rhs => rw [hdecomp]
      rw [hcl1]
      by_cases hv : cl[m] = 0
      · rw [if_pos hv, hv]
        simp [List.filter_append, List.filter_replicate]
      · rw [if_neg hv]
        simp [List.filter_append, List.filter_replicate, hv]
    rw [hcount, hfilter]

theorem colOf_length (g : SlotGrid) (c : Nat) : (colOf g c).length = g.length :=
  List.length_map ..

theorem colOf_getD (g : SlotGrid) (c j : Nat) : (colOf g c).getD j 0 = cellD g j c := by
  rw [List.getD_eq_getElem?_getD, colOf, List.getElem?_map, cellD_eq_getD]
  cases hg : g[j]? with
  | none => rfl
  | some row => rfl

theorem SlotRect_iff (g : SlotGrid) :
    SlotRect g ↔ ∀ j, j < g.length → rowLen g j = slotCols g := by
  constructor
  · intro h j hj
    exact rowLen_eq_slotCols h hj
  · intro h row hrow
    obtain ⟨j, hj, rfl⟩ := List.mem_iff_getElem.mp hrow
    have hrl := h j hj
    rw [rowLen, List.getElem?_eq_getElem hj] at hrl
    simpa using hrl

theorem slotCols_eq_rowLen (g : SlotGrid) : slotCols g = rowLen g 0 := by
  rw [slotCols, rowLen, List.get?_eq_getElem?]

theorem rect_transfer {g g' : SlotGrid} (hlen : g'.length = g.length)
    (hrow : ∀ j, rowLen g' j = rowLen g j) (h : SlotRect g) : SlotRect g' := by
  rw [SlotRect_iff]
  intro j hj
  rw [hrow j, slotCols_eq_rowLen, hrow 0, ← slotCols_eq_rowLen]
  exact rowLen_eq_slotCols h (hlen ▸ hj)

theorem getD_set {α : Type} (l : List α) (i j : Nat) (a d : α) :
    (l.set i a).getD j d = if i = j ∧ i < l.length then a else l.getD j d := by
  rw [List.getD_eq_getElem?_getD, List.getElem?_set]
  by_cases h : i = j
  · subst h
    by_cases hlt : i < l.length
    · simp [hlt]
    · rw [if_pos rfl, if_neg hlt, if_neg (fun hcon => hlt hcon.2),
        List.getD_eq_getElem?_getD, List.getElem?_eq_none (by omega)]
  · rw [if_neg h, if_neg (fun hcon => h hcon.1), ← List.getD_eq_getElem?_getD]

/-- List-level extensionality through `getD`. -/
theorem list_ext_getD {α : Type} {l l' : List α} (d : α) (hlen : l.length = l'.length)
    (h : ∀ j, l.getD j d = l'.getD j d) : l = l' := by
  apply List.ext_getElem hlen
  intro j h1 h2
  have := h j
  rwa [List.getD_eq_getElem _ _ h1, List.getD_eq_getElem _ _ h2] at this

/-- The gravity swap (cell at `(r, c)` with the cell below) projected onto
columns: column `c` gets the two entries exchanged, all other columns and the
grid shape are untouched. -/
theorem match3SwapPieces_gravity {g : SlotGrid} {r c : Nat} (hrect : SlotRect g)
    (hr1 : r + 1 < g.length) (hc : c < slotCols g) :
    (match3SwapPieces g ⟨(r : Int), (c : Int)⟩
      ⟨((r + 1 : Nat) : Int), (c : Int)⟩).length = g.length ∧
    (∀ j, rowLen (match3SwapPieces g ⟨(r : Int), (c : Int)⟩
      ⟨((r + 1 : Nat) : Int), (c : Int)⟩) j = rowLen g j) ∧
    colOf (match3SwapPieces g ⟨(r : Int), (c : Int)⟩
        ⟨((r + 1 : Nat) : Int), (c : Int)⟩) c =
      ((colOf g c).set r ((colOf g c).getD (r + 1) 0)).set (r + 1)
        ((colOf g c).getD r 0) ∧
    (∀ c', c' ≠ c → colOf (match3SwapPieces g ⟨(r : Int), (c : Int)⟩
      ⟨((r + 1 : Nat) : Int), (c : Int)⟩) c' = colOf g c') := by
  have hra : r < g.length := by omega
  have hca : c < rowLen g r := by rw [rowLen_eq_slotCols hrect hra]; exact hc
  have hcb : c < rowLen g (r + 1) := by rw [rowLen_eq_slotCols hrect hr1]; exact hc
  have hdesc := cellD_match3SwapPieces hra hca hr1 hcb
  have hlen := length_match3SwapPieces g
    (⟨(r : Int), (c : Int)⟩ : SlotPosition) ⟨((r + 1 : Nat) : Int), (c : Int)⟩
  have hrow := rowLen_match3SwapPieces g
    (⟨(r : Int), (c : Int)⟩ : SlotPosition) ⟨((r + 1 : Nat) : Int), (c : Int)⟩
  refine ⟨hlen, hrow, ?_, ?_⟩
  · apply list_ext_getD 0
    · rw [colOf_length, hlen, List.length_set, List.length_set, colOf_length]
    · intro j
      rw [colOf_getD, hdesc j c]
      by_cases h1 : j = r + 1
      · subst h1
        rw [if_pos (show r + 1 = r + 1 ∧ c = c from ⟨rfl, rfl⟩), getD_set,
          if_pos (show r + 1 = r + 1 ∧
              r + 1 < ((colOf g c).set r ((colOf g c).getD (r + 1) 0)).length from
            ⟨rfl, by rw [List.length_set, colOf_length]; exact hr1⟩), colOf_getD]
      · rw [if_neg (show ¬(j = r + 1 ∧ c = c) from fun hcon => h1 hcon.1), getD_set,
          if_neg (show ¬(r + 1 = j ∧
              r + 1 < ((colOf g c).set r ((colOf g c).getD (r + 1) 0)).length) from
            fun hcon => h1 hcon.1.symm)]
        by_cases h2 : j = r
        · subst h2
          rw [if_pos (show j = j ∧ c = c from ⟨rfl, rfl⟩), getD_set,
            if_pos (show j = j ∧ j < (colOf g c).length from
              ⟨rfl, by rw [colOf_length]; exact hra⟩), colOf_getD]
        · rw [if_neg (show ¬(j = r ∧ c = c) from fun hcon => h2 hcon.1), getD_set,
            if_neg (show ¬(r = j ∧ r < (colOf g c).length) from
              fun hcon => h2 hcon.1.symm), colOf_getD]
  · intro c' hc'
    apply list_ext_getD 0
    · rw [colOf_length, colOf_length, hlen]
    · intro j
      rw [colOf_getD, colOf_getD, hdesc j c',
        if_neg (show ¬(j = r + 1 ∧ c' = c) from fun hcon => hc' hcon.2),
        if_neg (show ¬(j = r ∧ c' = c) from fun hcon => hc' hcon.2)]

theorem slotIsValidPosition_natCast (g : SlotGrid) (r c : Nat) :
    slotIsValidPosition g ⟨(r : Int), (c : Int)⟩ = true ↔
      r < g.length ∧ c < slotCols g := by
  simp [slotIsValidPosition, slotCols]

theorem gravity_cond_iff {g : SlotGrid} (hrect : SlotRect g) {r c : Nat}
    (hc : c < slotCols g) :
    (slotIsValidPosition g ⟨((r + 1 : Nat) : Int), (c : Int)⟩ = true ∧
      slotGetPieceType g ⟨((r + 1 : Nat) : Int), (c : Int)⟩ = some 0) ↔
    (r + 1 < g.length ∧ cellD g (r + 1) c = 0) := by
  constructor
  · intro h
    obtain ⟨h1, h2⟩ := h
    have hb := (slotIsValidPosition_natCast g (r + 1) c).mp h1
    refine ⟨hb.1, ?_⟩
    rw [slotGetPieceType_eq_some g hb.1
      (by rw [rowLen_eq_slotCols hrect hb.1]; exact hc)] at h2
    exact Option.some_inj.mp h2
  · intro h
    obtain ⟨h1, h2⟩ := h
    refine ⟨(slotIsValidPosition_natCast g (r + 1) c).mpr ⟨h1, hc⟩, ?_⟩
    rw [slotGetPieceType_eq_some g h1
      (by rw [rowLen_eq_slotCols hrect h1]; exact hc), h2]

/-- The gravity `while` loop agrees with its column projection `colWhile`:
same grid shape, column `c` transformed exactly as `colWhile` transforms it,
all other columns untouched, the final position is `(colWhile …).2` in column
`c`, and the `hasChanged` flag is set exactly when the row index moved. -/
theorem slotGravityWhile_col :
    ∀ (fuel : Nat) (g : SlotGrid) (r c : Nat) (flag : Bool),
    SlotRect g → c < slotCols g →
    (slotGravityWhile fuel g ⟨(r : Int), (c : Int)⟩ flag).1.length = g.length ∧
    (∀ j, rowLen (slotGravityWhile fuel g ⟨(r : Int), (c : Int)⟩ flag).1 j = rowLen g j) ∧
    colOf (slotGravityWhile fuel g ⟨(r : Int), (c : Int)⟩ flag).1 c =
      (colWhile fuel (colOf g c) r).1 ∧
    (∀ c', c' ≠ c →
      colOf (slotGravityWhile fuel g ⟨(r : Int), (c : Int)⟩ flag).1 c' = colOf g c') ∧
    (slotGravityWhile fuel g ⟨(r : Int), (c : Int)⟩ flag).2.1 =
      ⟨(((colWhile fuel (colOf g c) r).2 : Nat) : Int), (c : Int)⟩ ∧
    ((slotGravityWhile fuel g ⟨(r : Int), (c : Int)⟩ flag).2.2 = true ↔
      (flag = true ∨ r < (colWhile fuel (colOf g c) r).2)) ∧
    r ≤ (colWhile fuel (colOf g c) r).2 := by
  intro fuel
  induction fuel with
  | zero =>
    intro g r c flag hrect hc
    refine ⟨rfl, fun j => rfl, rfl, fun c' _ => rfl, rfl, ?_, le_refl _⟩
    simp [slotGravityWhile, colWhile]
  | succ fuel ih =>
    intro g r c flag hrect hc
    have hcast : ((r : Int) + 1) = ((r + 1 : Nat) : Int) := by push_cast; ring
    by_cases hcond : r + 1 < g.length ∧ cellD g (r + 1) c = 0
    · have hgcond : slotIsValidPosition g ⟨((r + 1 : Nat) : Int), (c : Int)⟩ = true ∧
          slotGetPieceType g ⟨((r + 1 : Nat) : Int), (c : Int)⟩ = some 0 :=
        (gravity_cond_iff hrect hc).mpr hcond
      obtain ⟨hsl, hsr, hscol, hsother⟩ := match3SwapPieces_gravity hrect hcond.1 hc
      have hrect1 : SlotRect (match3SwapPieces g ⟨(r : Int), (c : Int)⟩
          ⟨((r + 1 : Nat) : Int), (c : Int)⟩) := rect_transfer hsl hsr hrect
      have hcols1 : slotCols (match3SwapPieces g ⟨(r : Int), (c : Int)⟩
          ⟨((r + 1 : Nat) : Int), (c : Int)⟩) = slotCols g := by
        rw [slotCols_eq_rowLen, hsr 0, ← slotCols_eq_rowLen]
      have hstep : slotGravityWhile (fuel + 1) g ⟨(r : Int), (c : Int)⟩ flag =
          slotGravityWhile fuel (match3SwapPieces g ⟨(r : Int), (c : Int)⟩
            ⟨((r + 1 : Nat) : Int), (c : Int)⟩) ⟨((r + 1 : Nat) : Int), (c : Int)⟩ true := by
        simp only [slotGravityWhile]
        rw [hcast, if_pos hgcond]
      have hcolcond : r + 1 < (colOf g c).length ∧ (colOf g c).getD (r + 1) 0 = 0 := by
        rw [colOf_length, colOf_getD]
        exact hcond
      have hcw : colWhile (fuel + 1) (colOf g c) r =
          colWhile fuel (colOf (match3SwapPieces g ⟨(r : Int), (c : Int)⟩
            ⟨((r + 1 : Nat) : Int), (c : Int)⟩) c) (r + 1) := by
        simp only [colWhile]
        rw [if_pos hcolcond, hscol]
      obtain ⟨k1, k2, k3, k4, k5, k6, k7⟩ := ih (match3SwapPieces g ⟨(r : Int), (c : Int)⟩
        ⟨((r + 1 : Nat) : Int), (c : Int)⟩) (r + 1) c true hrect1 (hcols1 ▸ hc)
      rw [hstep, hcw]
      refine ⟨by rw [k1, hsl], fun j => by rw [k2 j, hsr j], k3, ?_, k5, ?_, by omega⟩
      · intro c' hc'
        rw [k4 c' hc', hsother c' hc']
      · rw [k6]
        constructor
        · intro _
          exact Or.inr (by omega)
        · intro _
          exact Or.inl rfl
    · have hgstop : ¬(slotIsValidPosition g ⟨((r + 1 : Nat) : Int), (c : Int)⟩ = true ∧
          slotGetPieceType g ⟨((r + 1 : Nat) : Int), (c : Int)⟩ = some 0) := by
        intro hcon
        exact hcond ((gravity_cond_iff hrect hc).mp hcon)
      have hstop1 : slotGravityWhile (fuel + 1) g ⟨(r : Int), (c : Int)⟩ flag =
          (g, ⟨(r : Int), (c : Int)⟩, flag) := by
        simp only [slotGravityWhile]
        rw [hcast, if_neg hgstop]
      have hstop2 : colWhile (fuel + 1) (colOf g c) r = (colOf g c, r) := by
        apply colWhile_stop
        intro hcon
        apply hcond
        rwa [colOf_length, colOf_getD] at hcon
      rw [hstop1, hstop2]
      refine ⟨rfl, fun j => rfl, rfl, fun c' _ => rfl, rfl, by simp, le_refl _⟩

theorem slotGravityCell_col {g : SlotGrid} (chs : List (SlotPosition × SlotPosition))
    (r c : Nat) (hrect : SlotRect g) (hc : c < slotCols g) :
    (slotGravityCell (g, chs) r c).1.length = g.length ∧
    (∀ j, rowLen (slotGravityCell (g, chs) r c).1 j = rowLen g j) ∧
    colOf (slotGravityCell (g, chs) r c).1 c = (colWhile g.length (colOf g c) r).1 ∧
    (∀ c', c' ≠ c → colOf (slotGravityCell (g, chs) r c).1 c' = colOf g c') := by
  have hcast : ((r : Int) + 1) = ((r + 1 : Nat) : Int) := by push_cast; ring
  by_cases hvalid : slotIsValidPosition g ⟨((r + 1 : Nat) : Int), (c : Int)⟩ = true
  · obtain ⟨k1, k2, k3, k4, k5, k6, k7⟩ :=
      slotGravityWhile_col g.length g r c false hrect hc
    have hcell : (slotGravityCell (g, chs) r c).1 =
        (slotGravityWhile g.length g ⟨(r : Int), (c : Int)⟩ false).1 := by
      simp only [slotGravityCell]
      rw [hcast, if_pos hvalid]
      by_cases hmoved : (slotGravityWhile g.length g ⟨(r : Int), (c : Int)⟩ false).2.2 = true
      · rw [if_pos hmoved]
      · rw [if_neg hmoved]
    rw [hcell]
    exact ⟨k1, k2, k3, k4⟩
  · have hstop : colWhile g.length (colOf g c) r = (colOf g c, r) := by
      apply colWhile_stop
      intro hcon
      apply hvalid
      apply (slotIsValidPosition_natCast g (r + 1) c).mpr
      rw [colOf_length] at hcon
      exact ⟨hcon.1, hc⟩
    have hcell : slotGravityCell (g, chs) r c = (g, chs) := by
      simp only [slotGravityCell]
      rw [hcast, if_neg hvalid]
    rw [hcell, hstop]
    exact ⟨rfl, fun j => rfl, rfl, fun c' _ => rfl⟩

/-- The inner gravity loop over a duplicate-free list of in-range columns, at
one row: each listed column advances by one `colWhile`, the others are
untouched. -/
theorem gravity_fold_cols :
    ∀ (cs : List Nat) (g : SlotGrid) (chs : List (SlotPosition × SlotPosition))
      (r : Nat), SlotRect g → (∀ c ∈ cs, c < slotCols g) → cs.Nodup →
    ((cs.foldl (fun st2 c => slotGravityCell st2 r c) (g, chs)).1.length = g.length ∧
     (∀ j, rowLen (cs.foldl (fun st2 c => slotGravityCell st2 r c) (g, chs)).1 j =
        rowLen g j) ∧
     (∀ c, colOf (cs.foldl (fun st2 c => slotGravityCell st2 r c) (g, chs)).1 c =
        if c ∈ cs then (colWhile g.length (colOf g c) r).1 else colOf g c)) := by
  intro cs
  induction cs with
  | nil =>
    intro g chs r _ _ _
    exact ⟨rfl, fun j => rfl, fun c => by simp⟩
  | cons c0 cs ih =>
    intro g chs r hrect hbnd hnd
    obtain ⟨hnotin, hnd'⟩ := List.nodup_cons.mp hnd
    have hc0 := hbnd c0 (List.mem_cons_self ..)
    obtain ⟨k1, k2, k3, k4⟩ := slotGravityCell_col chs r c0 hrect hc0
    have hrect1 : SlotRect (slotGravityCell (g, chs) r c0).1 :=
      rect_transfer k1 k2 hrect
    have hcols1 : slotCols (slotGravityCell (g, chs) r c0).1 = slotCols g := by
      rw [slotCols_eq_rowLen, k2 0, ← slotCols_eq_rowLen]
    rw [List.foldl_cons]
    obtain ⟨m1, m2, m3⟩ := ih (slotGravityCell (g, chs) r c0).1
      (slotGravityCell (g, chs) r c0).2 r hrect1
      (fun c hcm => by rw [hcols1]; exact hbnd c (List.mem_cons_of_mem _ hcm)) hnd'
    refine ⟨by rw [m1, k1], fun j => by rw [m2 j, k2 j], fun c => ?_⟩
    rw [m3 c]
    by_cases hcc : c = c0
    · subst hcc
      rw [if_neg (fun hmem => hnotin hmem), if_pos (List.mem_cons_self ..), k3]
    · by_cases hmem : c ∈ cs
      · rw [if_pos hmem, if_pos (List.mem_cons_of_mem _ hmem), k4 c hcc, k1]
      · rw [if_neg hmem, if_neg ?hnc, k4 c hcc]
        case hnc =>
          intro hcon
          rcases List.mem_cons.mp hcon with h | h
          · exact hcc h
          · exact hmem h

/-- The full bottom-up gravity pass: the grid keeps its shape and every column
`c < cols` undergoes the whole per-column row pass; columns past `cols` are
untouched. -/
theorem gravity_fold_rows (cols : Nat) :
    ∀ (rs : List Nat) (g : SlotGrid) (chs : List (SlotPosition × SlotPosition)),
    SlotRect g → cols = slotCols g →
    ((rs.foldl (fun st r => (List.range cols).foldl
        (fun st2 c => slotGravityCell st2 r c) st) (g, chs)).1.length = g.length ∧
     (∀ j, rowLen (rs.foldl (fun st r => (List.range cols).foldl
        (fun st2 c => slotGravityCell st2 r c) st) (g, chs)).1 j = rowLen g j) ∧
     (∀ c, c < cols → colOf (rs.foldl (fun st r => (List.range cols).foldl
        (fun st2 c => slotGravityCell st2 r c) st) (g, chs)).1 c =
        rs.foldl (fun cl r => (colWhile g.length cl r).1) (colOf g c)) ∧
     (∀ c, cols ≤ c → colOf (rs.foldl (fun st r => (List.range cols).foldl
        (fun st2 c => slotGravityCell st2 r c) st) (g, chs)).1 c = colOf g c)) := by
  intro rs
  induction rs with
  | nil =>
    intro g chs _ _
    exact ⟨rfl, fun j => rfl, fun c _ => rfl, fun c _ => rfl⟩
  | cons r0 rs ih =>
    intro g chs hrect hcols
    rw [List.foldl_cons]
    obtain ⟨k1, k2, k3⟩ := gravity_fold_cols (List.range cols) g chs r0 hrect
      (fun c hcm => hcols ▸ List.mem_range.mp hcm) (List.nodup_range cols)
    have hrect1 : SlotRect ((List.range cols).foldl
        (fun st2 c => slotGravityCell st2 r0 c) (g, chs)).1 :=
      rect_transfer k1 k2 hrect
    have hcols1 : cols = slotCols ((List.range cols).foldl
        (fun st2 c => slotGravityCell st2 r0 c) (g, chs)).1 := by
      rw [slotCols_eq_rowLen, k2 0, ← slotCols_eq_rowLen, ← hcols]
    obtain ⟨m1, m2, m3, m4⟩ := ih ((List.range cols).foldl
        (fun st2 c => slotGravityCell st2 r0 c) (g, chs)).1
      ((List.range cols).foldl (fun st2 c => slotGravityCell st2 r0 c) (g, chs)).2
      hrect1 hcols1
    refine ⟨by rw [m1, k1], fun j => by rw [m2 j, k2 j], fun c hc => ?_, fun c hc => ?_⟩
    · rw [List.foldl_cons, m3 c hc, k3 c, if_pos (List.mem_range.mpr hc), k1]
    · rw [m4 c hc, k3 c,
        if_neg (fun hcon => absurd (List.mem_range.mp hcon) (Nat.not_lt.mpr hc))]

theorem slotApplyGravity_def (grid : SlotGrid) :
    slotApplyGravity grid =
      ((List.range grid.length).reverse).foldl
        (fun st r => (List.range (slotCols grid)).foldl
          (fun st2 c => slotGravityCell st2 r c) st)
        (grid, []) := rfl

/-- C4 (gravity compaction): for every rectangular grid, a single call to
`slotApplyGravity` keeps the grid's shape and turns every column into its
empty cells (0) on top followed by its original non-empty values compacted
toward the bottom, preserving their relative top-to-bottom order (they are the
`filter` of the original column, in order). -/
theorem slotApplyGravity_compacts (grid : SlotGrid) (hrect : SlotRect grid) :
    (slotApplyGravity grid).1.length = grid.length ∧
    (∀ j, rowLen (slotApplyGravity grid).1 j = rowLen grid j) ∧
    (∀ c, c < slotCols grid →
      colOf (slotApplyGravity grid).1 c =
        List.replicate ((colOf grid c).count 0) 0 ++
          (colOf grid c).filter (fun x => x ≠ 0)) := by
  obtain ⟨k1, k2, k3, -⟩ := gravity_fold_rows (slotCols grid)
    ((List.range grid.length).reverse) grid [] hrect rfl
  rw [slotApplyGravity_def]
  refine ⟨k1, k2, fun c hc => ?_⟩
  rw [k3 c hc]
  apply colPass_go grid.length grid.length (colOf grid c) (colOf_length ..)
    (le_refl _)
  refine ⟨0, [], ?_, by simp⟩
  rw [List.replicate_zero, List.nil_append]
  rw [← colOf_length grid c]
  exact List.drop_length _

/-- Witness for C4 on the spec's example grid `[[1, 0], [0, 2]]`: column 0
becomes `[0, 1]` (one empty on top, then the 1), matching
`replicate (count 0) 0 ++ filter (≠ 0)`. -/
theorem slotApplyGravity_compacts_witness :
    (slotApplyGravity [[1, 0], [0, 2]]).1.length = ([[1, 0], [0, 2]] : SlotGrid).length ∧
    colOf (slotApplyGravity [[1, 0], [0, 2]]).1 0 =
      List.replicate ((colOf [[1, 0], [0, 2]] 0).count 0) 0 ++
        (colOf [[1, 0], [0, 2]] 0).filter (fun x => x ≠ 0) :=
  ⟨(slotApplyGravity_compacts [[1, 0], [0, 2]] (by decide)).1,
    (slotApplyGravity_compacts [[1, 0], [0, 2]] (by decide)).2.2 0 (by decide)⟩

/-- The claim's "settled" predicate: in every column, no empty cell lies below
any occupied cell. -/
def SlotSettled (grid : SlotGrid) : Prop :=
  ∀ c, c < slotCols grid → ∀ j, j < grid.length → ∀ i, i < j →
    cellD grid i c ≠ 0 → cellD grid j c ≠ 0

instance (grid : SlotGrid) : Decidable (SlotSettled grid) := by
  unfold SlotSettled
  infer_instance

/-- No cell of any kind has an empty cell directly below it: all empty cells
sit in row 0. On a settled grid this says no column has two empty cells. -/
def SlotNoDeepEmpty (grid : SlotGrid) : Prop :=
  ∀ j, 1 ≤ j → j < grid.length → ∀ c, c < slotCols grid → cellD grid j c ≠ 0

instance (grid : SlotGrid) : Decidable (SlotNoDeepEmpty grid) := by
  unfold SlotNoDeepEmpty
  infer_instance

/-- A list whose non-zero entries never sit above a zero is already in
compacted form. -/
theorem settled_list_eq :
    ∀ (l : List SlotType),
    (∀ j, j < l.length → ∀ i, i < j → l.getD i 0 ≠ 0 → l.getD j 0 ≠ 0) →
    l = List.replicate (l.count 0) 0 ++ l.filter (fun x => x ≠ 0) := by
  intro l
  induction l with
  | nil => intro _; rfl
  | cons x xs ih =>
    intro h
    by_cases hx : x = 0
    · subst hx
      have hxs := ih ?htail
      case htail =>
        intro j hj i hij hi
        have := h (j + 1) (by simpa using Nat.succ_lt_succ hj) (i + 1) (by omega)
          (by simpa [List.getD_cons_succ] using hi)
        simpa [List.getD_cons_succ] using this
      calc 0 :: xs
          = 0 :: (List.replicate (xs.count 0) 0 ++ xs.filter (fun x => x ≠ 0)) := by
            rw [← hxs]
        _ = List.replicate ((0 :: xs).count 0) 0 ++
              (0 :: xs).filter (fun x => x ≠ 0) := by
            simp [List.count_cons, List.replicate_succ]
    · have hall : ∀ a ∈ x :: xs, a ≠ 0 := by
        intro a ha
        rcases List.mem_cons.mp ha with h0 | h0
        · rw [h0]
          exact hx
        · obtain ⟨j, hj, hje⟩ := List.mem_iff_getElem.mp h0
          intro ha0
          have hnz := h (j + 1) (by simpa using Nat.succ_lt_succ hj) 0 (by omega)
            (by simpa [List.getD_cons_zero] using hx)
          rw [List.getD_cons_succ, List.getD_eq_getElem _ _ hj, hje] at hnz
          exact hnz ha0
      have hcnt : (x :: xs).count 0 = 0 := by
        rw [List.count_eq_zero]
        intro hmem
        exact hall 0 hmem rfl
      have hfil : (x :: xs).filter (fun x => x ≠ 0) = x :: xs := by
        rw [List.filter_eq_self]
        intro a ha
        simpa using hall a ha
      rw [hcnt, hfil, List.replicate_zero, List.nil_append]

/-- C2 counterexample (claim as stated): the all-empty column `[[0], [0]]` is
settled — it has no occupied cell at all — yet `slotApplyGravity` records the
move of the empty cell (0,0) down to (1,0): the change list is not empty
(the grid itself is unchanged). -/
theorem slotApplyGravity_claim_counterexample :
    SlotSettled [[0], [0]] ∧
    slotApplyGravity [[0], [0]] = ([[0], [0]], [(⟨0, 0⟩, ⟨1, 0⟩)]) ∧
    (slotApplyGravity [[0], [0]]).2 ≠ [] := by
  refine ⟨by decide, by decide, by decide⟩

/-- C2 (amended, gravity idempotence): on a settled rectangular grid
`slotApplyGravity` leaves the grid unchanged; the change list is moreover
empty provided no empty cell sits below row 0 (on a settled grid: no column
has two or more empties) — otherwise empty cells sliding into the empty space
below them are still recorded as changes, as the counterexample shows. -/
theorem slotApplyGravity_settled (grid : SlotGrid) (hrect : SlotRect grid)
    (hsettled : SlotSettled grid) :
    (slotApplyGravity grid).1 = grid ∧
    (SlotNoDeepEmpty grid → (slotApplyGravity grid).2 = []) := by
  constructor
  · obtain ⟨k1, k2, k3⟩ := slotApplyGravity_compacts grid hrect
    apply grid_ext k1 (fun j _ => k2 j)
    intro j c hj hc
    have hc' : c < slotCols grid := by
      rw [← rowLen_eq_slotCols hrect (k1 ▸ hj)]
      rw [k2 j] at *
      exact hc
    have hcol : colOf (slotApplyGravity grid).1 c = colOf grid c := by
      rw [k3 c hc']
      symm
      apply settled_list_eq
      intro a ha i hia hi
      rw [colOf_getD] at hi ⊢
      rw [colOf_length] at ha
      exact hsettled c hc' a ha i hia hi
    rw [← colOf_getD, ← colOf_getD, hcol]
  · intro hdeep
    have hcell : ∀ (chs : List (SlotPosition × SlotPosition)) (r c : Nat),
        slotGravityCell (grid, chs) r c = (grid, chs) := by
      intro chs r c
      have hcast : ((r : Int) + 1) = ((r + 1 : Nat) : Int) := by push_cast; ring
      by_cases hvalid : slotIsValidPosition grid ⟨((r + 1 : Nat) : Int), (c : Int)⟩ = true
      · have hb := (slotIsValidPosition_natCast grid (r + 1) c).mp hvalid
        have hne : cellD grid (r + 1) c ≠ 0 := hdeep (r + 1) (by omega) hb.1 c hb.2
        have hstop : slotGravityWhile grid.length grid ⟨(r : Int), (c : Int)⟩ false =
            (grid, ⟨(r : Int), (c : Int)⟩, false) := by
          cases hfl : grid.length with
          | zero => rfl
          | succ m =>
            simp only [slotGravityWhile]
            rw [hcast, if_neg ?hng]
            case hng =>
              intro hcon
              apply hne
              exact ((gravity_cond_iff hrect hb.2).mp hcon).2
        simp only [slotGravityCell]
        rw [hcast, if_pos hvalid, hstop]
        rw [if_neg (by simp)]
      · simp only [slotGravityCell]
        rw [hcast, if_neg hvalid]
    have hinner : ∀ (cs : List Nat) (r : Nat) (chs : List (SlotPosition × SlotPosition)),
        cs.foldl (fun st2 c => slotGravityCell st2 r c) (grid, chs) = (grid, chs) := by
      intro cs
      induction cs with
      | nil => intro r chs; rfl
      | cons c0 cs ih =>
        intro r chs
        rw [List.foldl_cons, hcell chs r c0, ih r chs]
    have houter : ∀ (rs : List Nat) (chs : List (SlotPosition × SlotPosition)),
        rs.foldl (fun st r => (List.range (slotCols grid)).foldl
          (fun st2 c => slotGravityCell st2 r c) st) (grid, chs) = (grid, chs) := by
      intro rs
      induction rs with
      | nil => intro chs; rfl
      | cons r0 rs ih =>
        intro chs
        rw [List.foldl_cons, hinner (List.range (slotCols grid)) r0 chs, ih chs]
    rw [slotApplyGravity_def, houter ((List.range grid.length).reverse) []]

/-- Witness for C2 on the settled grid `[[0, 5], [7, 6]]` (empties only in row
0, so the change list is empty too). -/
theorem slotApplyGravity_settled_witness :
    (slotApplyGravity [[0, 5], [7, 6]]).1 = [[0, 5], [7, 6]] ∧
    (slotApplyGravity [[0, 5], [7, 6]]).2 = [] :=
  ⟨(slotApplyGravity_settled [[0, 5], [7, 6]] (by decide) (by decide)).1,
    (slotApplyGravity_settled [[0, 5], [7, 6]] (by decide) (by decide)).2 (by decide)⟩

/-! ### The round processor never clears the grid -/

/-- `jumpPiece` disposes the piece sprite but never writes into the grid. -/
theorem slotJumpPiece_grid (g : SlotGrid) (ps : List SlotPieceState)
    (pos : SlotPosition) : (slotJumpPiece g ps pos).1 = g := by
  unfold slotJumpPiece
  split <;> rfl

theorem slotJumpFold_grid :
    ∀ (P : List SlotPosition) (g : SlotGrid) (ps : List SlotPieceState),
    (P.foldl (fun st p => slotJumpPiece st.1 st.2 p) (g, ps)).1 = g := by
  intro P
  induction P with
  | nil => intro g ps; rfl
  | cons p P ih =>
    intro g ps
    rw [List.foldl_cons]
    calc (P.foldl (fun st p => slotJumpPiece st.1 st.2 p) (slotJumpPiece g ps p)).1
        = (slotJumpPiece g ps p).1 :=
          ih (slotJumpPiece g ps p).1 (slotJumpPiece g ps p).2
      _ = g := slotJumpPiece_grid g ps p

theorem slotJumpPieces_grid (g : SlotGrid) (ps : List SlotPieceState)
    (positions : List SlotPosition) : (slotJumpPieces g ps positions).1 = g :=
  slotJumpFold_grid positions g ps

theorem slotMatchesFold_grid :
    ∀ (L : List (List SlotPosition)) (g : SlotGrid) (ps : List SlotPieceState),
    (L.foldl (fun st m => slotJumpPieces st.1 st.2 m) (g, ps)).1 = g := by
  intro L
  induction L with
  | nil => intro g ps; rfl
  | cons m L ih =>
    intro g ps
    rw [List.foldl_cons]
    calc (L.foldl (fun st m => slotJumpPieces st.1 st.2 m) (slotJumpPieces g ps m)).1
        = (slotJumpPieces g ps m).1 :=
          ih (slotJumpPieces g ps m).1 (slotJumpPieces g ps m).2
      _ = g := slotJumpPieces_grid g ps m

/-- The "clear matches" step of a processing round leaves the grid untouched:
`processRegularMatches` only jumps piece sprites, and `jumpPiece` never calls
`slotSetPieceType` — the matched cells keep their non-zero type codes. -/
theorem slotProcessRegularMatches_grid (g : SlotGrid) (ps : List SlotPieceState) :
    (slotProcessRegularMatches g ps).1 = g :=
  slotMatchesFold_grid _ g ps

theorem slotRunRounds_step (types : List SlotType) (randSeq : Nat → Nat → Nat → Nat)
    (round fuel : Nat) (grid : SlotGrid) (pieces : List SlotPieceState) :
    slotRunRounds types randSeq round (fuel + 1) grid pieces =
      (if slotGetMatches (slotProcessRefillGrid
            (slotProcessApplyGravity (slotProcessRegularMatches grid pieces).1
              (slotProcessRegularMatches grid pieces).2).1
            (slotProcessApplyGravity (slotProcessRegularMatches grid pieces).1
              (slotProcessRegularMatches grid pieces).2).2
            types (randSeq (round + 1))).1 none 3 = [] ∧
          slotGetEmptyPositions (slotProcessRefillGrid
            (slotProcessApplyGravity (slotProcessRegularMatches grid pieces).1
              (slotProcessRegularMatches grid pieces).2).1
            (slotProcessApplyGravity (slotProcessRegularMatches grid pieces).1
              (slotProcessRegularMatches grid pieces).2).2
            types (randSeq (round + 1))).1 = [] then
        some (round + 1, (slotProcessRefillGrid
            (slotProcessApplyGravity (slotProcessRegularMatches grid pieces).1
              (slotProcessRegularMatches grid pieces).2).1
            (slotProcessApplyGravity (slotProcessRegularMatches grid pieces).1
              (slotProcessRegularMatches grid pieces).2).2
            types (randSeq (round + 1))).1)
      else slotRunRounds types randSeq (round + 1) fuel
        (slotProcessRefillGrid
            (slotProcessApplyGravity (slotProcessRegularMatches grid pieces).1
              (slotProcessRegularMatches grid pieces).2).1
            (slotProcessApplyGravity (slotProcessRegularMatches grid pieces).1
              (slotProcessRegularMatches grid pieces).2).2
            types (randSeq (round + 1))).1
        (slotProcessRefillGrid
            (slotProcessApplyGravity (slotProcessRegularMatches grid pieces).1
              (slotProcessRegularMatches grid pieces).2).1
            (slotProcessApplyGravity (slotProcessRegularMatches grid pieces).1
              (slotProcessRegularMatches grid pieces).2).2
            types (randSeq (round + 1))).2) := rfl

theorem slotProcessApplyGravity_grid (g : SlotGrid) (ps : List SlotPieceState) :
    (slotProcessApplyGravity g ps).1 = (slotApplyGravity g).1 := rfl

theorem slotProcessRefillGrid_grid (g : SlotGrid) (ps : List SlotPieceState)
    (types : List SlotType) (rand : Nat → Nat → Nat) :
    (slotProcessRefillGrid g ps types rand).1 = (slotFillUp g types rand).1 := rfl

theorem slotApplyGravity_ones : (slotApplyGravity [[1, 1, 1]]).1 = [[1, 1, 1]] := by
  decide

theorem slotFillUp_ones (types : List SlotType) (rand : Nat → Nat → Nat) :
    (slotFillUp [[1, 1, 1]] types rand).1 = [[1, 1, 1]] := rfl

/-- C1 (round divergence): starting from the grid `[[1, 1, 1]]` — one row with
a single horizontal match — the round loop of `SlotProcess` never reaches a
checkpoint with zero matches and zero empty cells, for any number of rounds,
any type list, any random draws and any piece-sprite list: the clear step
never writes 0 into the grid, gravity and refill find nothing to do, and the
checkpoint finds the same match every round, so the processor never returns to
idle. -/
theorem slotRunRounds_stuck :
    ∀ (fuel round : Nat) (types : List SlotType) (randSeq : Nat → Nat → Nat → Nat)
      (pieces : List SlotPieceState),
    slotRunRounds types randSeq round fuel [[1, 1, 1]] pieces = none := by
  intro fuel
  induction fuel with
  | zero =>
    intro round types randSeq pieces
    rfl
  | succ fuel ih =>
    intro round types randSeq pieces
    rw [slotRunRounds_step]
    have hclear := slotProcessRegularMatches_grid [[1, 1, 1]] pieces
    rw [hclear]
    have hgrid : (slotProcessRefillGrid
        (slotProcessApplyGravity [[1, 1, 1]] (slotProcessRegularMatches [[1, 1, 1]] pieces).2).1
        (slotProcessApplyGravity [[1, 1, 1]] (slotProcessRegularMatches [[1, 1, 1]] pieces).2).2
        types (randSeq (round + 1))).1 = [[1, 1, 1]] := by
      rw [slotProcessRefillGrid_grid, slotProcessApplyGravity_grid, slotApplyGravity_ones,
        slotFillUp_ones]
    rw [hgrid]
    rw [if_neg (by decide)]
    exact ih (round + 1) types randSeq _
